import Mathlib

/-!
Shallow embedding of the University-curriculum-scheduler core
(`src/classes/teacher.py`, `course.py`, `module.py`, `scheduler.py`).

Python dictionaries are modelled as association lists preserving insertion
order (Python dicts are ordered); Python sets that the scheduler iterates
over (`Course.prereqs`, `Course.possible_teachers`, `Teacher.assigned_modules`,
`Teacher.can_teach_courses`) are modelled as lists in some fixed traversal
order, since the code only iterates them and tests membership.
Functions that can raise in Python return `Except String`; a returned
`.error` models a raised exception.
-/

deriving instance DecidableEq for Except

/-- Ordered association map (model of a Python dict). -/
abbrev AMap (α β : Type) := List (α × β)

/-- First-match lookup in an association list (Python `d[k]` / `d.get(k)`). -/
def assocGet {α β : Type} [DecidableEq α] (l : AMap α β) (k : α) : Option β :=
  match l with
  | [] => none
  | (k', v) :: rest => if k = k' then some v else assocGet rest k

/-- Replace the first binding of `k` (Python `d[k] = v`); appends when absent. -/
def assocSet {α β : Type} [DecidableEq α] (l : AMap α β) (k : α) (v : β) :
    AMap α β :=
  match l with
  | [] => [(k, v)]
  | (k', v') :: rest =>
    if k = k' then (k', v) :: rest else (k', v') :: assocSet rest k v

theorem assocGet_assocSet_self {α β : Type} [DecidableEq α]
    (l : AMap α β) (k : α) (v : β) : assocGet (assocSet l k v) k = some v := by
  induction l with
  | nil => simp [assocGet, assocSet]
  | cons hd tl ih =>
    obtain ⟨k', v'⟩ := hd
    by_cases h : k = k' <;> simp [assocGet, assocSet, h, ih]

theorem assocGet_assocSet_ne {α β : Type} [DecidableEq α]
    (l : AMap α β) (k k' : α) (v : β) (h : k' ≠ k) :
    assocGet (assocSet l k v) k' = assocGet l k' := by
  induction l with
  | nil => simp [assocGet, assocSet, h]
  | cons hd tl ih =>
    obtain ⟨k₀, v₀⟩ := hd
    by_cases hk : k = k₀
    · subst hk
      simp [assocGet, assocSet, h]
    · by_cases hk' : k' = k₀ <;> simp [assocGet, assocSet, hk, hk', ih]

theorem mem_assocSet {α β : Type} [DecidableEq α]
    {l : AMap α β} {k : α} {v : β} {e : α × β} (h : e ∈ assocSet l k v) :
    e = (k, v) ∨ e ∈ l := by
  induction l with
  | nil => simpa [assocSet] using h
  | cons hd tl ih =>
    obtain ⟨k₀, v₀⟩ := hd
    by_cases hk : k = k₀
    · subst hk
      simp only [assocSet, if_pos rfl] at h
      rcases List.mem_cons.mp h with h | h
      · exact Or.inl (by simpa using h)
      · exact Or.inr (List.mem_cons_of_mem _ h)
    · simp only [assocSet, if_neg hk] at h
      rcases List.mem_cons.mp h with h | h
      · exact Or.inr (by simp [h])
      · rcases ih h with h | h
        · exact Or.inl h
        · exact Or.inr (List.mem_cons_of_mem _ h)

/-- Remove the first occurrence (Python `list.remove`, identity modelled by key). -/
def removeFirst {α : Type} [DecidableEq α] : List α → α → List α
  | [], _ => []
  | x :: xs, a => if x = a then xs else x :: removeFirst xs a

theorem removeFirst_length_of_mem {α : Type} [DecidableEq α]
    {xs : List α} {a : α} (h : a ∈ xs) :
    (removeFirst xs a).length + 1 = xs.length := by
  induction xs with
  | nil => cases h
  | cons x xs ih =>
    by_cases hx : x = a
    · simp [removeFirst, hx]
    · have : a ∈ xs := by
        rcases List.mem_cons.mp h with h | h
        · exact absurd h.symm hx
        · exact h
      simp [removeFirst, hx, ih this]

namespace Sched

/-- From `teacher.py`: `Teacher` — availability/capacity state of one teacher. -/
structure Teacher where
  name : String
  can_teach_courses : List String
  availability : List Int
  capacity_total : Int
  capacity_left : Int
  teaches : List (String × Nat)
  assigned_modules : List Nat
deriving DecidableEq

/-- Access `self.availability[module - 1]` (callers always pass 1..14 against a
14-entry list; the `getD` default is never reached there). -/
def availabilityAt (t : Teacher) (module : Nat) : Int :=
  t.availability.getD (module - 1) 0

/-- From `teacher.py`: `Teacher.is_available_for`. -/
def Teacher.is_available_for (t : Teacher) (course_name : String)
    (module : Nat) (strict : Bool) : Bool :=
  if t.capacity_left < 1 then false
  else if module ∈ t.assigned_modules then false
  else if availabilityAt t module = -1 then false
  else if strict = true ∧ availabilityAt t module = 0 then false
  else if course_name ∉ t.can_teach_courses then false
  else true

/-- From `teacher.py`: `Teacher.availability_score`; `none` models the implicit
Python `None` returned when the value is -1 (callers never query a
forbidden slot). -/
def Teacher.availability_score (t : Teacher) (module : Nat) : Option Nat :=
  if availabilityAt t module = 1 then some 0
  else if availabilityAt t module = 0 then some 1
  else none

/-- From `teacher.py`: `Teacher.assign_to`; returns the success flag together with
the updated teacher (Python mutates `self` in place).  `assigned_modules` is
a Python set; since `is_available_for` guarantees `module` is not yet a
member, `set.add` is modelled by appending. -/
def Teacher.assign_to (t : Teacher) (course_name : String) (module : Nat) :
    Bool × Teacher :=
  if ¬ t.is_available_for course_name module false then (false, t)
  else
    (true,
      { t with
        teaches := t.teaches ++ [(course_name, module)]
        assigned_modules := t.assigned_modules ++ [module]
        capacity_left := t.capacity_left - 1 })

/-- From `teacher.py`: `Teacher.availability_value`. -/
def Teacher.availability_value (t : Teacher) (module : Nat) : Int :=
  availabilityAt t module

/-- C7: `is_available_for` returns false exactly when capacity is exhausted,
the module is already occupied by this teacher, the slot is forbidden (-1),
strict mode hits a soft (0) slot, or the course is outside the teacher's
capabilities; otherwise it returns true.  The embedding is a pure function,
so it has no side effects. -/
theorem c7_is_available_for_false_iff (t : Teacher) (course_name : String)
    (module : Nat) (strict : Bool) :
    t.is_available_for course_name module strict = false ↔
      (t.capacity_left < 1 ∨ module ∈ t.assigned_modules ∨
        availabilityAt t module = -1 ∨
        (strict = true ∧ availabilityAt t module = 0) ∨
        course_name ∉ t.can_teach_courses) := by
  unfold Teacher.is_available_for
  split_ifs with h1 h2 h3 h4 h5 <;> simp_all

/-- C8: `assign_to` re-checks non-strict availability; on success it appends
the booking, records the module, decrements `capacity_left` by exactly one
and returns true; on failure it returns false with the teacher unchanged. -/
theorem c8_assign_to_spec (t : Teacher) (course_name : String) (module : Nat) :
    (t.is_available_for course_name module false = true →
      t.assign_to course_name module =
        (true,
          { t with
            teaches := t.teaches ++ [(course_name, module)]
            assigned_modules := t.assigned_modules ++ [module]
            capacity_left := t.capacity_left - 1 })) ∧
    (t.is_available_for course_name module false = false →
      t.assign_to course_name module = (false, t)) := by
  constructor <;> intro h <;> simp [Teacher.assign_to, h]

/-- Concrete witness teacher used to instantiate hypotheses. -/
def tAlice : Teacher :=
  { name := "Alice"
    can_teach_courses := ["CS101"]
    availability := [1, -1, -1, -1, 1, -1, -1, -1, -1, -1, -1, -1, -1, -1]
    capacity_total := 1
    capacity_left := 1
    teaches := []
    assigned_modules := [] }

theorem c8_assign_to_spec_witness :
    tAlice.assign_to "CS101" 5 =
      (true,
        { tAlice with
          teaches := [("CS101", 5)]
          assigned_modules := [5]
          capacity_left := 0 }) :=
  (c8_assign_to_spec tAlice "CS101" 5).1 (by decide)

/-- Immutable identity data of a `Course` as seen by a `Module`'s occupant
list (`module.py` stores course object references, but only ever reads the
immutable `part_of_chain` flag and identity from them). -/
structure CourseRef where
  name : String
  part_of_chain : Bool
deriving DecidableEq

/-- From `module.py`: `Module` — one scheduling slot. -/
structure Module where
  number : Nat
  max_capacity : Nat
  courses : List CourseRef
  chain_layers : AMap Nat Nat
  has_celebrity_course : Bool
deriving DecidableEq

/-- From `module.py`: `Module.total_count`. -/
def Module.total_count (m : Module) : Nat := m.courses.length

/-- From `module.py`: `Module.chain_count_in_layer` (`self.chain_layers.get(layer, 0)`). -/
def Module.chain_count_in_layer (m : Module) (layer : Nat) : Nat :=
  (assocGet m.chain_layers layer).getD 0

/-- From `module.py`: `Module.can_accept`. -/
def Module.can_accept (md : Module) (course : CourseRef) (layer : Nat)
    (is_celebrity : Bool) : Bool :=
  if md.total_count ≥ md.max_capacity then false
  else if course.part_of_chain = true ∧ md.has_celebrity_course = true then false
  else if course.part_of_chain = true ∧ md.chain_count_in_layer layer ≥ 1 then false
  else if is_celebrity = true ∧ md.has_celebrity_course = true then false
  else if is_celebrity = true ∧ md.courses.any (·.part_of_chain) = true then false
  else true

/-- From `module.py`: `Module.add_course` (the two `raise ValueError` branches are
modelled by `.error`). -/
def Module.add_course (md : Module) (course : CourseRef) (layer : Nat)
    (is_celebrity : Bool) : Except String Module :=
  if is_celebrity = true ∧ md.has_celebrity_course = true then
    .error "Module already has a celebrity course."
  else if is_celebrity = true ∧ md.courses.any (·.part_of_chain) = true then
    .error "Cannot add celebrity course after chain courses."
  else
    let md' :=
      if is_celebrity then { md with has_celebrity_course := true } else md
    let md'' := { md' with courses := md'.courses ++ [course] }
    .ok <|
      if course.part_of_chain then
        { md'' with
          chain_layers :=
            assocSet md''.chain_layers layer
              (md''.chain_count_in_layer layer + 1) }
      else md''

/-- From `course.py`: `Course` — one schedulable course. -/
structure Course where
  name : String
  part_of_chain : Bool
  min_layer : Nat
  prereqs : List String
  possible_teachers : List String
  module_assigned : Option Nat
  teacher_assigned : Option String
  layer_assigned : Option Nat
  is_celebrity : Bool
deriving DecidableEq

/-- The occupant-list view of a course. -/
def Course.ref (c : Course) : CourseRef := ⟨c.name, c.part_of_chain⟩

abbrev CoursesMap := AMap String Course
abbrev TeachersMap := AMap String Teacher

/-- Loop body of `course.py` `Course.all_prereqs_assigned`
(`courses.get` returning `None` raises `KeyError`). -/
def allPrereqsAssignedList (courses : CoursesMap) :
    List String → Except String Bool
  | [] => .ok true
  | p :: rest =>
    match assocGet courses p with
    | none => .error "Missing prereq"
    | some pc =>
      if pc.module_assigned = none then .ok false
      else allPrereqsAssignedList courses rest

/-- From `course.py`: `Course.all_prereqs_assigned`. -/
def Course.all_prereqs_assigned (c : Course) (courses : CoursesMap) :
    Except String Bool :=
  allPrereqsAssignedList courses c.prereqs

/-- Loop body of `course.py` `Course.get_latest_assigned_prereq`
(`courses[p]` raising `KeyError`, and the explicit `ValueError`, are errors). -/
def latestPrereqList (courses : CoursesMap) (latest : Nat) :
    List String → Except String Nat
  | [] => .ok latest
  | p :: rest =>
    match assocGet courses p with
    | none => .error "KeyError: courses[prereq_name]"
    | some pc =>
      match pc.module_assigned with
      | none => .error "Prereq not assigned."
      | some pm => latestPrereqList courses (max latest pm) rest

/-- From `course.py`: `Course.get_latest_assigned_prereq`. -/
def Course.get_latest_assigned_prereq (c : Course) (courses : CoursesMap) :
    Except String Nat :=
  latestPrereqList courses 0 c.prereqs

/-- Loop body of `course.py` `Course.has_teachers_for_module`
(`teachers.get` returning `None` makes the subsequent attribute access
raise; modelled by `.error`). -/
def hasTeachersList (course_name : String) (module : Nat)
    (teachers : TeachersMap) (strict : Bool) :
    List String → Except String Bool
  | [] => .ok false
  | tn :: rest =>
    match assocGet teachers tn with
    | none => .error "AttributeError: teacher is None"
    | some t =>
      if t.is_available_for course_name module strict then .ok true
      else hasTeachersList course_name module teachers strict rest

/-- From `course.py`: `Course.has_teachers_for_module`. -/
def Course.has_teachers_for_module (c : Course) (module : Nat)
    (teachers : TeachersMap) (strict : Bool) : Except String Bool :=
  hasTeachersList c.name module teachers strict c.possible_teachers

/-- One entry of the `available` list built by
`course.py` `Course.get_teacher_for_module`:
`(teacher_name, availability_score, specialization, capacity_left)`.
`score` holds `availability_score` which is `some _` for every appended
entry (the teacher passed `is_available_for`, so the slot is not -1);
`getD 0` makes the field total. -/
structure TCand where
  tname : String
  score : Nat
  specialization : Nat
  capacity_left : Int
deriving DecidableEq

/-- Building the `available` list of `get_teacher_for_module`, in traversal
order of `possible_teachers` (a missing teacher raises `KeyError`). -/
def collectAvailable (course_name : String) (module : Nat)
    (teachers : TeachersMap) (strict : Bool) :
    List String → Except String (List TCand)
  | [] => .ok []
  | tn :: rest =>
    match assocGet teachers tn with
    | none => .error "Teacher missing for course"
    | some t =>
      match collectAvailable course_name module teachers strict rest with
      | .error e => .error e
      | .ok tail =>
        if t.is_available_for course_name module strict then
          .ok (⟨tn, (t.availability_score module).getD 0,
                t.can_teach_courses.length, t.capacity_left⟩ :: tail)
        else .ok tail

/-- The comparison used by `min(available, key=lambda t: (t[1], t[2], -t[3]))`:
strict lexicographic order on `(availability_score, specialization,
-capacity_left)`.  The teacher name is NOT part of the key. -/
def tKeyLt (a b : TCand) : Bool :=
  a.score < b.score ∨
    (a.score = b.score ∧
      (a.specialization < b.specialization ∨
        (a.specialization = b.specialization ∧
          -a.capacity_left < -b.capacity_left)))

/-- Python `min` over a non-empty list: left fold keeping the first element
whose key is minimal (replacement only on strictly smaller key). -/
def pickMin {α : Type} (lt : α → α → Bool) : List α → Option α
  | [] => none
  | x :: xs => some (xs.foldl (fun best c => if lt c best then c else best) x)

/-- From `course.py`: `Course.get_teacher_for_module`. -/
def Course.get_teacher_for_module (c : Course) (module : Nat)
    (teachers : TeachersMap) (strict : Bool) : Except String (Option String) :=
  match collectAvailable c.name module teachers strict c.possible_teachers with
  | .error e => .error e
  | .ok available =>
    match pickMin tKeyLt available with
    | none => .ok none
    | some best => .ok (some best.tname)

/-- The first-minimum specification of Python `min` (which keeps the first
element attaining the minimal key): the result splits the list into a prefix
of strictly greater elements, itself, and a suffix of no smaller elements.
The order hypotheses hold for any strict weak order given as a `Bool` test. -/
theorem foldl_min_first {α : Type} (lt : α → α → Bool)
    (hIrr : ∀ a, lt a a = false)
    (hAsym : ∀ a b, lt a b = true → lt b a = false)
    (hComp1 : ∀ r c b, lt c b = true → lt c r = false → lt r b = true)
    (hComp2 : ∀ x y z, lt x y = true → lt z y = false → lt x z = true)
    (l : List α) :
    ∀ best,
      ∃ pre post,
        best :: l =
          pre ++ (l.foldl (fun b c => if lt c b then c else b) best) :: post ∧
        (∀ y ∈ pre, lt (l.foldl (fun b c => if lt c b then c else b) best) y = true) ∧
        (∀ y ∈ best :: l, lt y (l.foldl (fun b c => if lt c b then c else b) best) = false) := by
  induction l with
  | nil =>
    intro best
    exact ⟨[], [], rfl, by simp, by simpa using hIrr best⟩
  | cons c l' ih =>
    intro best
    rw [List.foldl_cons]
    cases hlt : lt c best with
    | true =>
      rw [if_pos rfl]
      obtain ⟨pre', post', heq, hpre, hmin⟩ := ih c
      have hcr : lt c (l'.foldl (fun b c => if lt c b then c else b) c) = false :=
        hmin c (List.mem_cons_self c l')
      have hrbest :
          lt (l'.foldl (fun b c => if lt c b then c else b) c) best = true :=
        hComp1 _ c best hlt hcr
      refine ⟨best :: pre', post', ?_, ?_, ?_⟩
      · rw [List.cons_append, ← heq]
      · intro y hy
        rcases List.mem_cons.mp hy with hy | hy
        · subst hy; exact hrbest
        · exact hpre y hy
      · intro y hy
        rcases List.mem_cons.mp hy with hy | hy
        · subst hy; exact hAsym _ _ hrbest
        · exact hmin y hy
    | false =>
      rw [if_neg Bool.false_ne_true]
      obtain ⟨pre', post', heq, hpre, hmin⟩ := ih best
      rcases pre' with _ | ⟨p, pre''⟩
      · obtain ⟨hb, hl⟩ := List.cons_eq_cons.mp (by simpa using heq)
        refine ⟨[], c :: l', ?_, by simp, ?_⟩
        · rw [← hb]; rfl
        · intro y hy
          rcases List.mem_cons.mp hy with hy | hy
          · subst hy; exact hmin _ (List.mem_cons_self _ _)
          · rcases List.mem_cons.mp hy with hy | hy
            · subst hy; rw [← hb]; exact hlt
            · exact hmin y (List.mem_cons_of_mem _ hy)
      · obtain ⟨hb, hl⟩ := List.cons_eq_cons.mp (by simpa using heq)
        have hrb :
            lt (l'.foldl (fun b c => if lt c b then c else b) best) best = true := by
          have := hpre p (List.mem_cons_self p pre'')
          rwa [← hb] at this
        have hrc :
            lt (l'.foldl (fun b c => if lt c b then c else b) best) c = true :=
          hComp2 _ best c hrb hlt
        refine ⟨best :: c :: pre'', post', ?_, ?_, ?_⟩
        · conv_lhs => rw [hl]
          simp
        · intro y hy
          rcases List.mem_cons.mp hy with hy | hy
          · subst hy; exact hrb
          · rcases List.mem_cons.mp hy with hy | hy
            · subst hy; exact hrc
            · exact hpre y (List.mem_cons_of_mem _ hy)
        · intro y hy
          rcases List.mem_cons.mp hy with hy | hy
          · subst hy; exact hmin _ (List.mem_cons_self _ _)
          · rcases List.mem_cons.mp hy with hy | hy
            · subst hy; exact hAsym _ _ hrc
            · exact hmin y (List.mem_cons_of_mem _ hy)

/-- Packaged form for `pickMin`. -/
theorem pickMin_first {α : Type} (lt : α → α → Bool)
    (hIrr : ∀ a, lt a a = false)
    (hAsym : ∀ a b, lt a b = true → lt b a = false)
    (hComp1 : ∀ r c b, lt c b = true → lt c r = false → lt r b = true)
    (hComp2 : ∀ x y z, lt x y = true → lt z y = false → lt x z = true)
    {l : List α} {r : α} (h : pickMin lt l = some r) :
    ∃ pre post, l = pre ++ r :: post ∧
      (∀ y ∈ pre, lt r y = true) ∧ (∀ y ∈ l, lt y r = false) := by
  match l, h with
  | x :: xs, h =>
    have hr : xs.foldl (fun b c => if lt c b then c else b) x = r := by
      simpa [pickMin] using h
    obtain ⟨pre, post, heq, hpre, hmin⟩ :=
      foldl_min_first lt hIrr hAsym hComp1 hComp2 xs x
    rw [hr] at heq hpre hmin
    exact ⟨pre, post, heq, hpre, hmin⟩

/-- The function `pickMin` returns an element of the list. -/
theorem pickMin_mem {α : Type} (lt : α → α → Bool)
    {l : List α} {r : α} (h : pickMin lt l = some r) : r ∈ l := by
  match l, h with
  | x :: xs, h =>
    have hr : xs.foldl (fun b c => if lt c b then c else b) x = r := by
      simpa [pickMin] using h
    clear h
    induction xs generalizing x with
    | nil => simp_all
    | cons y ys ih =>
      rw [List.foldl_cons] at hr
      cases hy : lt y x with
      | true =>
        have hstep : (if lt y x = true then y else x) = y := by simp [hy]
        rw [hstep] at hr
        have := ih y hr
        rcases List.mem_cons.mp this with h | h
        · exact List.mem_cons_of_mem _ (h ▸ List.mem_cons_self y ys)
        · exact List.mem_cons_of_mem _ (List.mem_cons_of_mem _ h)
      | false =>
        have hstep : (if lt y x = true then y else x) = x := by simp [hy]
        rw [hstep] at hr
        have := ih x hr
        rcases List.mem_cons.mp this with h | h
        · exact h ▸ List.mem_cons_self x (y :: ys)
        · exact List.mem_cons_of_mem _ (List.mem_cons_of_mem _ h)

theorem tKeyLt_irrefl (a : TCand) : tKeyLt a a = false := by
  simp [tKeyLt]

theorem tKeyLt_asymm (a b : TCand) :
    tKeyLt a b = true → tKeyLt b a = false := by
  simp only [tKeyLt, decide_eq_true_eq, decide_eq_false_iff_not]
  omega

theorem tKeyLt_comp1 (r c b : TCand) :
    tKeyLt c b = true → tKeyLt c r = false → tKeyLt r b = true := by
  simp only [tKeyLt, decide_eq_true_eq, decide_eq_false_iff_not]
  omega

theorem tKeyLt_comp2 (x y z : TCand) :
    tKeyLt x y = true → tKeyLt z y = false → tKeyLt x z = true := by
  simp only [tKeyLt, decide_eq_true_eq, decide_eq_false_iff_not]
  omega

/-- Every entry of the `available` list describes a teacher of the traversal
list that passed `is_available_for`, with the recorded key fields. -/
theorem collectAvailable_sound {course_name : String} {module : Nat}
    {teachers : TeachersMap} {strict : Bool} {names : List String}
    {l : List TCand}
    (h : collectAvailable course_name module teachers strict names = .ok l) :
    ∀ e ∈ l, e.tname ∈ names ∧ ∃ t, assocGet teachers e.tname = some t ∧
      t.is_available_for course_name module strict = true ∧
      e.score = (t.availability_score module).getD 0 ∧
      e.specialization = t.can_teach_courses.length ∧
      e.capacity_left = t.capacity_left := by
  induction names generalizing l with
  | nil =>
    simp only [collectAvailable, Except.ok.injEq] at h
    subst h
    intro e he
    cases he
  | cons tn rest ih =>
    simp only [collectAvailable] at h
    split at h
    · cases h
    · rename_i t hg
      split at h
      · cases h
      · rename_i tail hr
        split at h
        · rename_i hav
          simp only [Except.ok.injEq] at h
          subst h
          intro e he
          rcases List.mem_cons.mp he with he | he
          · subst he
            exact ⟨List.mem_cons_self _ _, t, hg, hav, rfl, rfl, rfl⟩
          · obtain ⟨hmem, t', ht'⟩ := ih hr e he
            exact ⟨List.mem_cons_of_mem _ hmem, t', ht'⟩
        · simp only [Except.ok.injEq] at h
          subst h
          intro e he
          obtain ⟨hmem, t', ht'⟩ := ih hr e he
          exact ⟨List.mem_cons_of_mem _ hmem, t', ht'⟩

/-- Every available teacher of the traversal list contributes its entry to
the `available` list. -/
theorem collectAvailable_complete {course_name : String} {module : Nat}
    {teachers : TeachersMap} {strict : Bool} {names : List String}
    {l : List TCand}
    (h : collectAvailable course_name module teachers strict names = .ok l) :
    ∀ tn ∈ names, ∀ t, assocGet teachers tn = some t →
      t.is_available_for course_name module strict = true →
      (⟨tn, (t.availability_score module).getD 0, t.can_teach_courses.length,
        t.capacity_left⟩ : TCand) ∈ l := by
  induction names generalizing l with
  | nil =>
    intro tn htn
    cases htn
  | cons tn0 rest ih =>
    simp only [collectAvailable] at h
    split at h
    · cases h
    · rename_i t0 hg
      split at h
      · cases h
      · rename_i tail hr
        intro tn htn t hget hav
        rcases List.mem_cons.mp htn with htn | htn
        · subst htn
          rw [hget] at hg
          cases hg
          rw [if_pos hav] at h
          simp only [Except.ok.injEq] at h
          subst h
          exact List.mem_cons_self _ _
        · have hmem := ih hr tn htn t hget hav
          split at h <;> simp only [Except.ok.injEq] at h <;> subst h
          · exact List.mem_cons_of_mem _ hmem
          · exact hmem

/-- C4 (amended): `get_teacher_for_module` returns the teacher whose
selection key `(availability_score, specialization, -capacity_left)` is
minimal among all available eligible teachers; when several are tied on
that key, it returns the one occurring FIRST in the traversal order of
`possible_teachers` (a Python set, so not necessarily the
lexicographically smallest name). -/
theorem c4_get_teacher_first_minimum (c : Course) (module : Nat)
    (teachers : TeachersMap) (strict : Bool) (nm : String)
    (h : c.get_teacher_for_module module teachers strict = .ok (some nm)) :
    ∃ available chosen,
      collectAvailable c.name module teachers strict c.possible_teachers =
        .ok available ∧
      pickMin tKeyLt available = some chosen ∧
      chosen.tname = nm ∧
      (chosen.tname ∈ c.possible_teachers ∧
        ∃ t, assocGet teachers chosen.tname = some t ∧
          t.is_available_for c.name module strict = true ∧
          chosen.score = (t.availability_score module).getD 0 ∧
          chosen.specialization = t.can_teach_courses.length ∧
          chosen.capacity_left = t.capacity_left) ∧
      (∀ tn ∈ c.possible_teachers, ∀ t, assocGet teachers tn = some t →
        t.is_available_for c.name module strict = true →
        (⟨tn, (t.availability_score module).getD 0,
          t.can_teach_courses.length, t.capacity_left⟩ : TCand) ∈ available) ∧
      (∀ e ∈ available, tKeyLt e chosen = false) ∧
      (∃ pre post, available = pre ++ chosen :: post ∧
        ∀ e ∈ pre, tKeyLt chosen e = true) := by
  unfold Course.get_teacher_for_module at h
  split at h
  · cases h
  · rename_i available hcol
    split at h
    · cases h
    · rename_i chosen hpick
      simp only [Except.ok.injEq, Option.some.injEq] at h
      obtain ⟨pre, post, heq, hpre, hmin⟩ :=
        pickMin_first tKeyLt tKeyLt_irrefl tKeyLt_asymm tKeyLt_comp1
          tKeyLt_comp2 hpick
      have hchosen := collectAvailable_sound hcol chosen
        (pickMin_mem tKeyLt hpick)
      exact ⟨available, chosen, hcol, hpick, h, hchosen,
        collectAvailable_complete hcol, hmin, pre, post, heq, hpre⟩

/-- Teachers for the concrete C4 scenario: two teachers with identical
selection keys, traversed in the order Bob, Ann. -/
def tBobT : Teacher :=
  { name := "Bob"
    can_teach_courses := ["CS1"]
    availability := [1, 1, 1, 1, 1, 1, 1, 1, 1, 1, 1, 1, 1, 1]
    capacity_total := 3
    capacity_left := 3
    teaches := []
    assigned_modules := [] }

def tAnnT : Teacher := { tBobT with name := "Ann" }

def cexTeachers : TeachersMap := [("Bob", tBobT), ("Ann", tAnnT)]

def cexCourse : Course :=
  { name := "CS1"
    part_of_chain := false
    min_layer := 0
    prereqs := []
    possible_teachers := ["Bob", "Ann"]
    module_assigned := none
    teacher_assigned := none
    layer_assigned := none
    is_celebrity := false }

/-- C4 counterexample: both teachers are available and tied on the
selection key `(availability_score, specialization, -capacity_left)`, but
the function returns the first in traversal order ("Bob"), not the
lexicographically smallest name ("Ann"). -/
theorem c4_counterexample :
    cexCourse.get_teacher_for_module 1 cexTeachers false = .ok (some "Bob") ∧
    tBobT.is_available_for "CS1" 1 false = true ∧
    tAnnT.is_available_for "CS1" 1 false = true ∧
    tBobT.availability_score 1 = tAnnT.availability_score 1 ∧
    tBobT.can_teach_courses.length = tAnnT.can_teach_courses.length ∧
    tBobT.capacity_left = tAnnT.capacity_left ∧
    ("Ann" : String) < "Bob" := by
  refine ⟨by decide, by decide, by decide, by decide, by decide, by decide, ?_⟩
  rw [String.lt_iff_toList_lt]
  decide

theorem c4_get_teacher_first_minimum_witness :
    ∃ available chosen,
      collectAvailable cexCourse.name 1 cexTeachers false
        cexCourse.possible_teachers = .ok available ∧
      pickMin tKeyLt available = some chosen ∧
      chosen.tname = "Bob" ∧
      (chosen.tname ∈ cexCourse.possible_teachers ∧
        ∃ t, assocGet cexTeachers chosen.tname = some t ∧
          t.is_available_for cexCourse.name 1 false = true ∧
          chosen.score = (t.availability_score 1).getD 0 ∧
          chosen.specialization = t.can_teach_courses.length ∧
          chosen.capacity_left = t.capacity_left) ∧
      (∀ tn ∈ cexCourse.possible_teachers, ∀ t, assocGet cexTeachers tn = some t →
        t.is_available_for cexCourse.name 1 false = true →
        (⟨tn, (t.availability_score 1).getD 0,
          t.can_teach_courses.length, t.capacity_left⟩ : TCand) ∈ available) ∧
      (∀ e ∈ available, tKeyLt e chosen = false) ∧
      (∃ pre post, available = pre ++ chosen :: post ∧
        ∀ e ∈ pre, tKeyLt chosen e = true) :=
  c4_get_teacher_first_minimum cexCourse 1 cexTeachers false "Bob" (by decide)

/-- Ordering loop of `course.py` `Course.can_be_assigned_to_module`:
each prerequisite must have an assigned layer, and its absolute index
`layer*14 + module` must be strictly below the candidate index.  The
`KeyError`/`TypeError` branches model the Python crashes on a missing or
module-unassigned prerequisite; both are unreachable because
`all_prereqs_assigned` has already returned `True` when this loop runs. -/
def prereqOrderOk (courses : CoursesMap) (absolute_current : Nat) :
    List String → Except String Bool
  | [] => .ok true
  | p :: rest =>
    match assocGet courses p with
    | none => .error "KeyError: courses[prereq_name]"
    | some pc =>
      match pc.layer_assigned with
      | none => .ok false
      | some pl =>
        match pc.module_assigned with
        | none => .error "TypeError: module_assigned is None"
        | some pm =>
          if absolute_current ≤ pl * 14 + pm then .ok false
          else prereqOrderOk courses absolute_current rest

/-- From `course.py`: `Course.can_be_assigned_to_module`. -/
def Course.can_be_assigned_to_module (c : Course) (module layer : Nat)
    (courses : CoursesMap) (teachers : TeachersMap) (strict : Bool) :
    Except String Bool :=
  if c.module_assigned ≠ none then .ok false
  else if layer < c.min_layer then .ok false
  else
    match c.all_prereqs_assigned courses with
    | .error e => .error e
    | .ok pre =>
      if pre = false then .ok false
      else
        match prereqOrderOk courses (layer * 14 + module) c.prereqs with
        | .error e => .error e
        | .ok ordOk =>
          if ordOk = false then .ok false
          else
            match c.has_teachers_for_module module teachers strict with
            | .error e => .error e
            | .ok ht => if ht = false then .ok false else .ok true

/-- The updates produced by a successful `Course.assign_to_module` (Python
mutates the course and the chosen teacher in place; the scheduler embedding
writes these back into its maps). -/
structure AssignResult where
  course : Course
  teacher_name : String
  teacher : Teacher
deriving DecidableEq

/-- From `course.py`: `Course.assign_to_module`; `.ok none` models `return False`
(no mutation has happened in that case). -/
def Course.assign_to_module (c : Course) (module layer : Nat)
    (courses : CoursesMap) (teachers : TeachersMap) (strict : Bool) :
    Except String (Option AssignResult) :=
  match c.can_be_assigned_to_module module layer courses teachers strict with
  | .error e => .error e
  | .ok can =>
    if can = false then .ok none
    else
      match c.get_teacher_for_module module teachers strict with
      | .error e => .error e
      | .ok none => .ok none
      | .ok (some chosen_teacher) =>
        match assocGet teachers chosen_teacher with
        | none => .error "KeyError: teachers[chosen_teacher]"
        | some t =>
          let r := t.assign_to c.name module
          if r.1 = false then .ok none
          else
            .ok (some
              ⟨{ c with
                  module_assigned := some module
                  layer_assigned := some layer
                  teacher_assigned := some chosen_teacher },
                chosen_teacher, r.2⟩)

/-- The three shared mappings held by `scheduler.py` `Scheduler`. -/
structure SchedState where
  teachers : TeachersMap
  courses : CoursesMap
  modules : AMap Nat Module
deriving DecidableEq

/-- Python `str.strip()` (used on celebrity rows), modelled on the character
list because the scheduler only ever strips plain names. -/
def pyStrip (s : String) : String :=
  ⟨((s.data.dropWhile Char.isWhitespace).reverse.dropWhile
      Char.isWhitespace).reverse⟩

/-- One iteration of the `scheduler.py` `pass1_celebrity` loop: validate one
`(course_name, module_num, teacher_name)` row, book the teacher, set the
course's assignment fields and place it in the module.  Note that the
source sets `module_assigned`, `teacher_assigned` and `is_celebrity` but
does NOT set `layer_assigned` (scheduler.py lines 75-77). -/
def pass1Row (st : SchedState) (row : String × Nat × String) :
    Except String SchedState :=
  let course_name := pyStrip row.1
  let module_num := row.2.1
  let teacher_name := pyStrip row.2.2
  if course_name = "" ∨ teacher_name = "" then .error "Bad celebrity row"
  else
    match assocGet st.modules module_num with
    | none => .error "Invalid module number"
    | some md =>
      match assocGet st.courses course_name with
      | none => .error "Celebrity course not found in courses"
      | some course =>
        match assocGet st.teachers teacher_name with
        | none => .error "Celebrity teacher not found in teachers"
        | some teacher =>
          if course.module_assigned ≠ none then
            .error "Course already assigned"
          else if teacher_name ∉ course.possible_teachers then
            .error "Teacher not in possible_teachers"
          else if teacher.is_available_for course_name module_num false
              = false then
            .error "Teacher not available"
          else if md.can_accept course.ref 0 true = false then
            .error "Module cannot accept celebrity course"
          else
            let r := teacher.assign_to course_name module_num
            if r.1 = false then .error "Teacher.assign_to failed"
            else
              let course' :=
                { course with
                    module_assigned := some module_num
                    teacher_assigned := some teacher_name
                    is_celebrity := true }
              match md.add_course course'.ref 0 true with
              | .error e => .error e
              | .ok md' =>
                .ok { st with
                        teachers := assocSet st.teachers teacher_name r.2
                        courses := assocSet st.courses course_name course'
                        modules := assocSet st.modules module_num md' }

/-- The `pass1_celebrity` loop with its `assigned` counter. -/
def pass1Loop (st : SchedState) (assigned : Nat) :
    List (String × Nat × String) → Except String (Nat × SchedState)
  | [] => .ok (assigned, st)
  | row :: rest =>
    match pass1Row st row with
    | .error e => .error e
    | .ok st' => pass1Loop st' (assigned + 1) rest

/-- From `scheduler.py`: `Scheduler.pass1_celebrity`. -/
def pass1_celebrity (st : SchedState)
    (celebrity_courses : List (String × Nat × String)) :
    Except String (Nat × SchedState) :=
  pass1Loop st 0 celebrity_courses

/-- An empty module slot as built by `data_loaders.build_modules`. -/
def emptyModule (n : Nat) : Module :=
  { number := n
    max_capacity := 9
    courses := []
    chain_layers := []
    has_celebrity_course := false }

/-- The fourteen module slots 1..14. -/
def modules14 : AMap Nat Module :=
  (List.range' 1 14).map (fun i => (i, emptyModule i))

/-- Spec scenario 1: course CS101, teacher Alice, fixed placement at slot 5. -/
def cs101 : Course :=
  { name := "CS101"
    part_of_chain := false
    min_layer := 0
    prereqs := []
    possible_teachers := ["Alice"]
    module_assigned := none
    teacher_assigned := none
    layer_assigned := none
    is_celebrity := false }

def stScenario1 : SchedState :=
  { teachers := [("Alice", tAlice)]
    courses := [("CS101", cs101)]
    modules := modules14 }

/-- C1: evidence of the code bug.  On the spec's scenario 1, Pass 1 succeeds
and sets `module_assigned = 5`, `teacher_assigned = "Alice"` and
`is_celebrity = true`, but leaves `layer_assigned = none` — the source never
assigns `course.layer_assigned`, although the spec fixes the layer at 0 and
requires all assignment fields to be set together. -/
theorem c1_pass1_layer_unset :
    (pass1_celebrity stScenario1 [("CS101", 5, "Alice")]).map (fun r =>
      match assocGet r.2.courses "CS101" with
      | some c =>
        (c.module_assigned, c.teacher_assigned, c.is_celebrity,
          c.layer_assigned)
      | none => (none, none, false, some 0)) =
    .ok (some 5, some "Alice", true, none) := by decide

/-- A teacher for the chained-celebrity scenarios. -/
def tT : Teacher :=
  { name := "T"
    can_teach_courses := ["B"]
    availability := [1, 1, 1, 1, 1, 1, 1, 1, 1, 1, 1, 1, 1, 1]
    capacity_total := 2
    capacity_left := 2
    teaches := []
    assigned_modules := [] }

/-- A chained course with no prerequisites (a prereq CSV row with an empty
prerequisite list marks the course chained). -/
def chB : Course :=
  { name := "B"
    part_of_chain := true
    min_layer := 0
    prereqs := []
    possible_teachers := ["T"]
    module_assigned := none
    teacher_assigned := none
    layer_assigned := none
    is_celebrity := false }

def stC2 : SchedState :=
  { teachers := [("T", tT)]
    courses := [("B", chB)]
    modules := modules14 }

/-- C2 counterexample: a fixed-placement row naming a chained course is
accepted by Pass 1, after which slot 1 simultaneously has
`has_celebrity_course = true` and a chained occupant — the invariant as
claimed fails on such inputs. -/
theorem c2_counterexample :
    (pass1_celebrity stC2 [("B", 1, "T")]).map (fun r =>
      match assocGet r.2.modules 1 with
      | some md => (md.has_celebrity_course, md.courses.any (·.part_of_chain))
      | none => (false, false)) = .ok (true, true) := by decide

/-- An ordinary course serving as the unassigned prerequisite of `chBA`. -/
def crsA : Course :=
  { name := "A"
    part_of_chain := false
    min_layer := 0
    prereqs := []
    possible_teachers := ["T"]
    module_assigned := none
    teacher_assigned := none
    layer_assigned := none
    is_celebrity := false }

/-- A chained course whose prerequisite is `A`. -/
def chBA : Course := { chB with prereqs := ["A"] }

def stC3 : SchedState :=
  { teachers := [("T", tT)]
    courses := [("A", crsA), ("B", chBA)]
    modules := modules14 }

/-- C3 counterexample: Pass 1 places the chained course `B` (prerequisite
`A`) without any prerequisite check, so after Pass 1 the assigned chained
unit `B` has an unassigned prerequisite — the invariant as claimed (covering
units assigned by Pass 1) fails. -/
theorem c3_counterexample :
    (pass1_celebrity stC3 [("B", 1, "T")]).map (fun r =>
      ((match assocGet r.2.courses "B" with
        | some b => (b.part_of_chain, b.module_assigned, b.prereqs)
        | none => (false, none, [])),
       (match assocGet r.2.courses "A" with
        | some a => a.module_assigned
        | none => some 0))) = .ok ((true, some 1, ["A"]), none) := by decide

/-- Inner helper `is_ready` of `pass2_chains`. -/
def is_ready (courses : CoursesMap) (c : Course) (layer : Nat) :
    Except String Bool :=
  if c.part_of_chain = false then .ok false
  else if c.module_assigned ≠ none then .ok false
  else if layer < c.min_layer then .ok false
  else c.all_prereqs_assigned courses

/-- Inner helper `fits_in_module` of `pass2_chains`. -/
def fits_in_module (st : SchedState) (c : Course) (module_num layer : Nat)
    (strict : Bool) : Except String Bool :=
  match assocGet st.modules module_num with
  | none => .error "KeyError: modules[module_num]"
  | some md =>
    if md.has_celebrity_course = true then .ok false
    else if md.can_accept c.ref layer false = false then .ok false
    else c.can_be_assigned_to_module module_num layer st.courses st.teachers
      strict

/-- Python `range(1, 15)`. -/
def moduleNums : List Nat := List.range' 1 14

/-- Counting loop of `pass2_chains` inner helper `feasible_module_count`. -/
def countFits (st : SchedState) (c : Course) (layer : Nat) (strict : Bool) :
    List Nat → Except String Nat
  | [] => .ok 0
  | m :: rest =>
    match fits_in_module st c m layer strict with
    | .error e => .error e
    | .ok b =>
      match countFits st c layer strict rest with
      | .error e => .error e
      | .ok n => .ok (if b then n + 1 else n)

/-- Inner helper `feasible_module_count` of `pass2_chains`. -/
def feasible_module_count (st : SchedState) (c : Course) (layer : Nat)
    (strict : Bool) : Except String Nat :=
  countFits st c layer strict moduleNums

/-- Python string comparison (lexicographic on code points), written on the
character list so that it evaluates inside the kernel. -/
def charsLt : List Char → List Char → Bool
  | [], [] => false
  | [], _ :: _ => true
  | _ :: _, [] => false
  | a :: as, b :: bs =>
    if a.val < b.val then true
    else if b.val < a.val then false
    else charsLt as bs

def pyStrLt (a b : String) : Bool := charsLt a.data b.data

/-- One entry of the `candidates` list of `pass2_chains`:
`(mc, -latest, course.name, course)`; `key` is the course's key in the
courses mapping (the Python list stores the object reference itself). -/
structure Cand where
  mc : Nat
  negLatest : Int
  name : String
  key : String
  course : Course
deriving DecidableEq

/-- The `candidates.sort()` comparison on `(mc, -latest, course.name)`.  The
fourth tuple component (the course object) is never compared because course
names are unique among candidates. -/
def candLt (a b : Cand) : Bool :=
  if a.mc < b.mc then true
  else if b.mc < a.mc then false
  else if a.negLatest < b.negLatest then true
  else if b.negLatest < a.negLatest then false
  else pyStrLt a.name b.name

/-- Candidate gathering of one module visit in `pass2_chains`, in the order
of the `unassigned` working list.  A key no longer present in the courses
mapping is skipped (it cannot occur: the working list is drawn from the
mapping and keys are never removed). -/
def gatherCandidates (st : SchedState) (layer : Nat) (strict : Bool)
    (module_num : Nat) : List String → Except String (List Cand)
  | [] => .ok []
  | key :: rest =>
    match assocGet st.courses key with
    | none => gatherCandidates st layer strict module_num rest
    | some c =>
      match is_ready st.courses c layer with
      | .error e => .error e
      | .ok r =>
        if r = false then gatherCandidates st layer strict module_num rest
        else
          match fits_in_module st c module_num layer strict with
          | .error e => .error e
          | .ok f =>
            if f = false then gatherCandidates st layer strict module_num rest
            else
              match feasible_module_count st c layer strict with
              | .error e => .error e
              | .ok mc =>
                match (match c.prereqs with
                       | [] => Except.ok 0
                       | _ :: _ => c.get_latest_assigned_prereq st.courses) with
                | .error e => .error e
                | .ok latest =>
                  match gatherCandidates st layer strict module_num rest with
                  | .error e => .error e
                  | .ok tail =>
                    .ok (⟨mc, -(latest : Int), c.name, key, c⟩ :: tail)

/-- One module visit of a `pass2_chains` sub-phase: skip celebrity modules
and modules already holding a chain course in this layer, gather and score
candidates, assign the minimal one and place it.  A failing `assign_to_module`
after a positive feasibility check raises (`RuntimeError` in the source). -/
def pass2Module (layer : Nat) (strict : Bool) (st : SchedState)
    (unassigned : List String) (module_num : Nat) :
    Except String (SchedState × List String × Nat) :=
  match assocGet st.modules module_num with
  | none => .error "KeyError: modules[module_num]"
  | some md =>
    if md.has_celebrity_course = true then .ok (st, unassigned, 0)
    else if md.chain_count_in_layer layer ≥ 1 then .ok (st, unassigned, 0)
    else
      match gatherCandidates st layer strict module_num unassigned with
      | .error e => .error e
      | .ok cands =>
        match pickMin candLt cands with
        | none => .ok (st, unassigned, 0)
        | some chosen =>
          match chosen.course.assign_to_module module_num layer st.courses
              st.teachers strict with
          | .error e => .error e
          | .ok none =>
            .error "Inconsistent state: was feasible but assignment failed."
          | .ok (some a) =>
            match md.add_course a.course.ref layer false with
            | .error e => .error e
            | .ok md' =>
              .ok ({ st with
                      courses := assocSet st.courses chosen.key a.course
                      teachers := assocSet st.teachers a.teacher_name a.teacher
                      modules := assocSet st.modules module_num md' },
                removeFirst unassigned chosen.key, 1)

/-- One sub-phase of `pass2_chains`: a single sweep over modules 1..14,
accumulating `progress_phase`. -/
def pass2Sweep (layer : Nat) (strict : Bool) :
    List Nat → SchedState → List String →
      Except String (SchedState × List String × Nat)
  | [], st, un => .ok (st, un, 0)
  | m :: ms, st, un =>
    match pass2Module layer strict st un m with
    | .error e => .error e
    | .ok (st1, un1, p) =>
      match pass2Sweep layer strict ms st1 un1 with
      | .error e => .error e
      | .ok (st2, un2, q) => .ok (st2, un2, p + q)

/-- The `for strict in [True, False]` loop of one layer iteration, with its
early `break` as soon as a sub-phase makes progress.  The returned number is
`progress_this_layer`. -/
def pass2Phases (layer : Nat) :
    List Bool → SchedState → List String →
      Except String (SchedState × List String × Nat)
  | [], st, un => .ok (st, un, 0)
  | strict :: rest, st, un =>
    match pass2Sweep layer strict moduleNums st un with
    | .error e => .error e
    | .ok (st1, un1, p) =>
      if p > 0 then .ok (st1, un1, p)
      else pass2Phases layer rest st1 un1

/-- Every gathered candidate is drawn from the working list, and carries the
course currently bound to its key. -/
theorem gatherCandidates_key_mem {st : SchedState} {layer : Nat}
    {strict : Bool} {module_num : Nat} {un : List String} {cands : List Cand}
    (h : gatherCandidates st layer strict module_num un = .ok cands) :
    ∀ cand ∈ cands, cand.key ∈ un ∧
      assocGet st.courses cand.key = some cand.course := by
  induction un generalizing cands with
  | nil =>
    simp only [gatherCandidates, Except.ok.injEq] at h
    subst h
    intro cand hc
    cases hc
  | cons key rest ih =>
    simp only [gatherCandidates] at h
    split at h
    · intro cand hc
      obtain ⟨hm, hg⟩ := ih h cand hc
      exact ⟨List.mem_cons_of_mem _ hm, hg⟩
    · rename_i c hget
      split at h
      · cases h
      · split at h
        · intro cand hc
          obtain ⟨hm, hg⟩ := ih h cand hc
          exact ⟨List.mem_cons_of_mem _ hm, hg⟩
        · split at h
          · cases h
          · split at h
            · intro cand hc
              obtain ⟨hm, hg⟩ := ih h cand hc
              exact ⟨List.mem_cons_of_mem _ hm, hg⟩
            · split at h
              · cases h
              · split at h
                · cases h
                · split at h
                  · cases h
                  · rename_i tail htail
                    simp only [Except.ok.injEq] at h
                    subst h
                    intro cand hc
                    rcases List.mem_cons.mp hc with hc | hc
                    · subst hc
                      exact ⟨List.mem_cons_self _ _, hget⟩
                    · obtain ⟨hm, hg⟩ := ih htail cand hc
                      exact ⟨List.mem_cons_of_mem _ hm, hg⟩

/-- A module visit removes exactly as many working-list entries as it
reports progress. -/
theorem pass2Module_length {layer : Nat} {strict : Bool} {st : SchedState}
    {un : List String} {m : Nat} {st' : SchedState} {un' : List String}
    {p : Nat} (h : pass2Module layer strict st un m = .ok (st', un', p)) :
    un'.length + p = un.length := by
  unfold pass2Module at h
  split at h
  · cases h
  · rename_i md hmd
    split at h
    · simp only [Except.ok.injEq, Prod.mk.injEq] at h
      rcases h with ⟨-, rfl, rfl⟩
      omega
    · split at h
      · simp only [Except.ok.injEq, Prod.mk.injEq] at h
        rcases h with ⟨-, rfl, rfl⟩
        omega
      · split at h
        · cases h
        · rename_i cands hcands
          split at h
          · simp only [Except.ok.injEq, Prod.mk.injEq] at h
            rcases h with ⟨-, rfl, rfl⟩
            omega
          · rename_i chosen hchosen
            split at h
            · cases h
            · cases h
            · rename_i a ha
              split at h
              · cases h
              · simp only [Except.ok.injEq, Prod.mk.injEq] at h
                rcases h with ⟨-, rfl, rfl⟩
                have hmem : chosen.key ∈ un :=
                  (gatherCandidates_key_mem hcands chosen
                    (pickMin_mem candLt hchosen)).1
                have := removeFirst_length_of_mem hmem
                omega

/-- A sub-phase sweep removes exactly as many entries as its progress. -/
theorem pass2Sweep_length {layer : Nat} {strict : Bool} :
    ∀ {ms : List Nat} {st : SchedState} {un : List String}
      {st' : SchedState} {un' : List String} {p : Nat},
      pass2Sweep layer strict ms st un = .ok (st', un', p) →
      un'.length + p = un.length := by
  intro ms
  induction ms with
  | nil =>
    intro st un st' un' p h
    simp only [pass2Sweep, Except.ok.injEq, Prod.mk.injEq] at h
    rcases h with ⟨-, rfl, rfl⟩
    omega
  | cons m ms ih =>
    intro st un st' un' p h
    simp only [pass2Sweep] at h
    cases h1 : pass2Module layer strict st un m with
    | error e => rw [h1] at h; cases h
    | ok r1 =>
      obtain ⟨st1, un1, p1⟩ := r1
      rw [h1] at h
      dsimp only at h
      cases h2 : pass2Sweep layer strict ms st1 un1 with
      | error e => rw [h2] at h; cases h
      | ok r2 =>
        obtain ⟨st2, un2, p2⟩ := r2
        rw [h2] at h
        dsimp only at h
        simp only [Except.ok.injEq, Prod.mk.injEq] at h
        rcases h with ⟨-, rfl, rfl⟩
        have e1 := pass2Module_length h1
        have e2 := ih h2
        omega

/-- A layer iteration removes exactly as many entries as
`progress_this_layer`. -/
theorem pass2Phases_length {layer : Nat} :
    ∀ {phases : List Bool} {st : SchedState} {un : List String}
      {st' : SchedState} {un' : List String} {p : Nat},
      pass2Phases layer phases st un = .ok (st', un', p) →
      un'.length + p = un.length := by
  intro phases
  induction phases with
  | nil =>
    intro st un st' un' p h
    simp only [pass2Phases, Except.ok.injEq, Prod.mk.injEq] at h
    rcases h with ⟨-, rfl, rfl⟩
    omega
  | cons strict rest ih =>
    intro st un st' un' p h
    simp only [pass2Phases] at h
    cases h1 : pass2Sweep layer strict moduleNums st un with
    | error e => rw [h1] at h; cases h
    | ok r1 =>
      obtain ⟨st1, un1, p1⟩ := r1
      rw [h1] at h
      dsimp only at h
      have e1 := pass2Sweep_length h1
      by_cases hp : p1 > 0
      · rw [if_pos hp] at h
        simp only [Except.ok.injEq, Prod.mk.injEq] at h
        rcases h with ⟨-, rfl, rfl⟩
        omega
      · rw [if_neg hp] at h
        have e2 := ih h
        omega

/-- The `while unassigned` loop of `pass2_chains`: the working list, the
`assigned_total` counter and the current `layer`.  The loop stops (without
raising) as soon as `layer > max_layers`; the `raise RuntimeError` that
once lived on that path is commented out in the source. -/
def pass2Loop (max_layers : Nat) (st : SchedState) (unassigned : List String)
    (assigned_total layer : Nat) : Except String (Nat × SchedState) :=
  if unassigned = [] then .ok (assigned_total, st)
  else if layer > max_layers then .ok (assigned_total, st)
  else
    match hph : pass2Phases layer [true, false] st unassigned with
    | .error e => .error e
    | .ok (st1, un1, p) =>
      if p = 0 then
        pass2Loop max_layers st1 un1 assigned_total (layer + 1)
      else
        pass2Loop max_layers st1 un1 (assigned_total + p) layer
termination_by (unassigned.length, max_layers + 1 - layer)
decreasing_by
· have := pass2Phases_length hph
  have h1 : un1.length = unassigned.length := by omega
  rw [h1]
  apply Prod.Lex.right
  omega
· apply Prod.Lex.left
  have := pass2Phases_length hph
  omega

/-- From `scheduler.py`: `Scheduler.pass2_chains` (default `max_layers` is 2). -/
def pass2_chains (st : SchedState) (max_layers : Nat) :
    Except String (Nat × SchedState) :=
  pass2Loop max_layers st
    ((st.courses.filter (fun e =>
        decide (e.2.part_of_chain = true ∧ e.2.module_assigned = none))).map
      (fun e => e.1))
    0 0

/-- C5: whenever the layer counter exceeds `max_layers` while chained units
are still unassigned, Pass 2 stops and returns the count of units placed so
far, without raising and without touching any further state; the remaining
units simply stay unassigned (the `raise RuntimeError` on this path is
commented out in the source). -/
theorem c5_pass2_cutoff (max_layers layer assigned_total : Nat)
    (st : SchedState) (un : List String)
    (h1 : layer > max_layers) (h2 : un ≠ []) :
    pass2Loop max_layers st un assigned_total layer =
      .ok (assigned_total, st) := by
  unfold pass2Loop
  rw [if_neg h2, if_pos h1]

def stEmpty : SchedState := { teachers := [], courses := [], modules := [] }

theorem c5_pass2_cutoff_witness :
    pass2Loop 2 stEmpty ["X"] 5 3 = .ok (5, stEmpty) :=
  c5_pass2_cutoff 2 3 5 stEmpty ["X"] (by decide) (by decide)

/-- C6: in each layer iteration of Pass 2 the sub-phases run strict first
with an early break: if the strict sweep places at least one unit, the
layer iteration's result is exactly the strict sweep's result (the soft
sweep never runs); only if the strict sweep places nothing does the
iteration continue as the soft sweep from the strict sweep's state. -/
theorem c6_strict_then_soft (layer : Nat) (st st1 : SchedState)
    (un un1 : List String) (p1 : Nat)
    (h : pass2Sweep layer true moduleNums st un = .ok (st1, un1, p1)) :
    (p1 > 0 → pass2Phases layer [true, false] st un = .ok (st1, un1, p1)) ∧
    (p1 = 0 → pass2Phases layer [true, false] st un =
      pass2Sweep layer false moduleNums st1 un1) := by
  constructor
  · intro hp
    simp only [pass2Phases, h]
    rw [if_pos hp]
  · intro hp
    subst hp
    simp only [pass2Phases, h]
    rw [if_neg (by omega)]
    cases h2 : pass2Sweep layer false moduleNums st1 un1 with
    | error e => rfl
    | ok r2 =>
      obtain ⟨st2, un2, p2⟩ := r2
      dsimp only
      by_cases hq : p2 > 0
      · rw [if_pos hq]
      · rw [if_neg hq]
        have hz : p2 = 0 := by omega
        subst hz
        rfl

def stMods : SchedState :=
  { teachers := [], courses := [], modules := modules14 }

theorem c6_strict_then_soft_witness :
    (0 > 0 → pass2Phases 0 [true, false] stMods [] = .ok (stMods, [], 0)) ∧
    (0 = 0 → pass2Phases 0 [true, false] stMods [] =
      pass2Sweep 0 false moduleNums stMods []) :=
  c6_strict_then_soft 0 stMods stMods [] [] 0 (by decide)

/-- Inner helper `teacher_options_count` of `pass3_solitary` (a missing teacher
is skipped with `continue`). -/
def teacher_options_count (teachers : TeachersMap) (c : Course)
    (module_num : Nat) (strict : Bool) : Nat :=
  c.possible_teachers.countP (fun tn =>
    match assocGet teachers tn with
    | none => false
    | some t => t.is_available_for c.name module_num strict)

/-- One entry of the `candidates` list of `pass3_solitary`:
`(opts, course.name, course)` plus the course's key in the mapping. -/
structure P3Cand where
  opts : Nat
  name : String
  key : String
  course : Course
deriving DecidableEq

/-- The `candidates.sort()` comparison on `(opts, course.name)`; the course
object itself is never compared because names are unique. -/
def cand3Lt (a b : P3Cand) : Bool :=
  if a.opts < b.opts then true
  else if b.opts < a.opts then false
  else pyStrLt a.name b.name

/-- Candidate gathering of one module visit in `pass3_solitary`: module
capacity and exclusivity via `can_accept` (layer 0, not a fixed placement)
and teacher availability at the current strictness. -/
def gather3 (st : SchedState) (strict : Bool) (module_num : Nat)
    (md : Module) : List String → Except String (List P3Cand)
  | [] => .ok []
  | key :: rest =>
    match assocGet st.courses key with
    | none => gather3 st strict module_num md rest
    | some c =>
      if md.can_accept c.ref 0 false = false then
        gather3 st strict module_num md rest
      else
        match c.has_teachers_for_module module_num st.teachers strict with
        | .error e => .error e
        | .ok ht =>
          if ht = false then gather3 st strict module_num md rest
          else
            match gather3 st strict module_num md rest with
            | .error e => .error e
            | .ok tail =>
              .ok (⟨teacher_options_count st.teachers c module_num strict,
                    c.name, key, c⟩ :: tail)

/-- One module visit of a `pass3_solitary` sweep; an `assign_to_module`
returning `False` is skipped silently (`continue` in the source). -/
def pass3Module (strict : Bool) (st : SchedState) (unassigned : List String)
    (module_num : Nat) : Except String (SchedState × List String × Nat) :=
  match assocGet st.modules module_num with
  | none => .error "KeyError: modules[module_num]"
  | some md =>
    match gather3 st strict module_num md unassigned with
    | .error e => .error e
    | .ok cands =>
      match pickMin cand3Lt cands with
      | none => .ok (st, unassigned, 0)
      | some chosen =>
        match chosen.course.assign_to_module module_num 0 st.courses
            st.teachers strict with
        | .error e => .error e
        | .ok none => .ok (st, unassigned, 0)
        | .ok (some a) =>
          match md.add_course a.course.ref 0 false with
          | .error e => .error e
          | .ok md' =>
            .ok ({ st with
                    courses := assocSet st.courses chosen.key a.course
                    teachers := assocSet st.teachers a.teacher_name a.teacher
                    modules := assocSet st.modules module_num md' },
              removeFirst unassigned chosen.key, 1)

def insertSorted {α : Type} (le : α → α → Bool) (x : α) : List α → List α
  | [] => [x]
  | y :: ys => if le x y then x :: y :: ys else y :: insertSorted le x ys

def insertionSort {α : Type} (le : α → α → Bool) : List α → List α
  | [] => []
  | x :: xs => insertSorted le x (insertionSort le xs)

/-- The key of `sorted(self.modules.keys(), key=lambda m:
(self.modules[m].total_count(), m))`. -/
def moduleLe (a b : Nat × Module) : Bool :=
  if a.2.total_count < b.2.total_count then true
  else if b.2.total_count < a.2.total_count then false
  else a.1 ≤ b.1

/-- The emptiest-first module order, recomputed each sweep. -/
def sortedModuleNums (st : SchedState) : List Nat :=
  (insertionSort moduleLe st.modules).map (fun e => e.1)

/-- One full sweep of `pass3_solitary` over the given module order. -/
def pass3SweepList (strict : Bool) :
    List Nat → SchedState → List String →
      Except String (SchedState × List String × Nat)
  | [], st, un => .ok (st, un, 0)
  | m :: ms, st, un =>
    match pass3Module strict st un m with
    | .error e => .error e
    | .ok (st1, un1, p) =>
      match pass3SweepList strict ms st1 un1 with
      | .error e => .error e
      | .ok (st2, un2, q) => .ok (st2, un2, p + q)

/-- Every gathered pass-3 candidate is drawn from the working list, carries
the course currently bound to its key, and passed the module's `can_accept`
check (layer 0, not a fixed placement). -/
theorem gather3_key_mem {st : SchedState} {strict : Bool} {module_num : Nat}
    {md : Module} {un : List String} {cands : List P3Cand}
    (h : gather3 st strict module_num md un = .ok cands) :
    ∀ cand ∈ cands, cand.key ∈ un ∧
      assocGet st.courses cand.key = some cand.course ∧
      md.can_accept cand.course.ref 0 false = true := by
  induction un generalizing cands with
  | nil =>
    simp only [gather3, Except.ok.injEq] at h
    subst h
    intro cand hc
    cases hc
  | cons key rest ih =>
    simp only [gather3] at h
    split at h
    · intro cand hc
      obtain ⟨hm, hg⟩ := ih h cand hc
      exact ⟨List.mem_cons_of_mem _ hm, hg⟩
    · rename_i c hget
      split at h
      · intro cand hc
        obtain ⟨hm, hg⟩ := ih h cand hc
        exact ⟨List.mem_cons_of_mem _ hm, hg⟩
      · rename_i hacc
        split at h
        · cases h
        · split at h
          · intro cand hc
            obtain ⟨hm, hg⟩ := ih h cand hc
            exact ⟨List.mem_cons_of_mem _ hm, hg⟩
          · split at h
            · cases h
            · rename_i tail htail
              simp only [Except.ok.injEq] at h
              subst h
              intro cand hc
              rcases List.mem_cons.mp hc with hc | hc
              · subst hc
                refine ⟨List.mem_cons_self _ _, hget, ?_⟩
                cases ha : md.can_accept c.ref 0 false
                · exact absurd ha hacc
                · rfl
              · obtain ⟨hm, hg⟩ := ih htail cand hc
                exact ⟨List.mem_cons_of_mem _ hm, hg⟩

/-- A pass-3 module visit removes exactly as many entries as its progress. -/
theorem pass3Module_length {strict : Bool} {st : SchedState}
    {un : List String} {m : Nat} {st' : SchedState} {un' : List String}
    {p : Nat} (h : pass3Module strict st un m = .ok (st', un', p)) :
    un'.length + p = un.length := by
  unfold pass3Module at h
  split at h
  · cases h
  · rename_i md hmd
    split at h
    · cases h
    · rename_i cands hcands
      split at h
      · simp only [Except.ok.injEq, Prod.mk.injEq] at h
        rcases h with ⟨-, rfl, rfl⟩
        omega
      · rename_i chosen hchosen
        split at h
        · cases h
        · simp only [Except.ok.injEq, Prod.mk.injEq] at h
          rcases h with ⟨-, rfl, rfl⟩
          omega
        · rename_i a ha
          split at h
          · cases h
          · simp only [Except.ok.injEq, Prod.mk.injEq] at h
            rcases h with ⟨-, rfl, rfl⟩
            have hmem : chosen.key ∈ un :=
              (gather3_key_mem hcands chosen
                (pickMin_mem cand3Lt hchosen)).1
            have := removeFirst_length_of_mem hmem
            omega

/-- A pass-3 sweep removes exactly as many entries as its progress. -/
theorem pass3SweepList_length {strict : Bool} :
    ∀ {ms : List Nat} {st : SchedState} {un : List String}
      {st' : SchedState} {un' : List String} {p : Nat},
      pass3SweepList strict ms st un = .ok (st', un', p) →
      un'.length + p = un.length := by
  intro ms
  induction ms with
  | nil =>
    intro st un st' un' p h
    simp only [pass3SweepList, Except.ok.injEq, Prod.mk.injEq] at h
    rcases h with ⟨-, rfl, rfl⟩
    omega
  | cons m ms ih =>
    intro st un st' un' p h
    simp only [pass3SweepList] at h
    cases h1 : pass3Module strict st un m with
    | error e => rw [h1] at h; cases h
    | ok r1 =>
      obtain ⟨st1, un1, p1⟩ := r1
      rw [h1] at h
      dsimp only at h
      cases h2 : pass3SweepList strict ms st1 un1 with
      | error e => rw [h2] at h; cases h
      | ok r2 =>
        obtain ⟨st2, un2, p2⟩ := r2
        rw [h2] at h
        dsimp only at h
        simp only [Except.ok.injEq, Prod.mk.injEq] at h
        rcases h with ⟨-, rfl, rfl⟩
        have e1 := pass3Module_length h1
        have e2 := ih h2
        omega

/-- The `while unassigned` loop of one `pass3_solitary` phase, sweeping
until a full sweep makes no progress. -/
def pass3While (strict : Bool) (st : SchedState) (unassigned : List String)
    (assigned_total : Nat) :
    Except String (SchedState × List String × Nat) :=
  if unassigned = [] then .ok (st, unassigned, assigned_total)
  else
    match hsw : pass3SweepList strict (sortedModuleNums st) st unassigned with
    | .error e => .error e
    | .ok (st1, un1, p) =>
      if p = 0 then .ok (st1, un1, assigned_total)
      else pass3While strict st1 un1 (assigned_total + p)
termination_by unassigned.length
decreasing_by
  have := pass3SweepList_length hsw
  omega

/-- From `scheduler.py`: `Scheduler.pass3_solitary`: strict phase, then (only if
units remain) soft phase. -/
def pass3_solitary (st : SchedState) : Except String (Nat × SchedState) :=
  match pass3While true st
      ((st.courses.filter (fun e =>
          decide (e.2.module_assigned = none))).map (fun e => e.1)) 0 with
  | .error e => .error e
  | .ok (st1, un1, p1) =>
    if un1 = [] then .ok (p1, st1)
    else
      match pass3While false st1 un1 p1 with
      | .error e => .error e
      | .ok (st2, _, p2) => .ok (p2, st2)

theorem assocGet_mem {α β : Type} [DecidableEq α] {l : AMap α β} {k : α}
    {v : β} (h : assocGet l k = some v) : (k, v) ∈ l := by
  induction l with
  | nil => cases h
  | cons hd tl ih =>
    obtain ⟨k0, v0⟩ := hd
    simp only [assocGet] at h
    split at h
    · rename_i heq
      simp only [Option.some.injEq] at h
      subst heq
      subst h
      exact List.mem_cons_self _ _
    · exact List.mem_cons_of_mem _ (ih h)

/-- Fact: `all_prereqs_assigned` returning `True` means every prerequisite
resolves and has an assigned module. -/
theorem allPrereqs_ok_true {courses : CoursesMap} :
    ∀ {ps : List String}, allPrereqsAssignedList courses ps = .ok true →
      ∀ p ∈ ps, ∃ pc, assocGet courses p = some pc ∧
        pc.module_assigned ≠ none := by
  intro ps
  induction ps with
  | nil =>
    intro h p hp
    cases hp
  | cons q rest ih =>
    intro h p hp
    simp only [allPrereqsAssignedList] at h
    split at h
    · cases h
    · rename_i pc hg
      split at h
      · simp at h
      · rename_i hmod
        rcases List.mem_cons.mp hp with hp | hp
        · subst hp
          exact ⟨pc, hg, hmod⟩
        · exact ih h p hp

/-- The ordering loop returning `True` means every prerequisite has both an
assigned layer and module, strictly below the candidate index. -/
theorem prereqOrder_ok_true {courses : CoursesMap} {abs : Nat} :
    ∀ {ps : List String}, prereqOrderOk courses abs ps = .ok true →
      ∀ p ∈ ps, ∃ pc pl pm, assocGet courses p = some pc ∧
        pc.layer_assigned = some pl ∧ pc.module_assigned = some pm ∧
        pl * 14 + pm < abs := by
  intro ps
  induction ps with
  | nil =>
    intro h p hp
    cases hp
  | cons q rest ih =>
    intro h p hp
    simp only [prereqOrderOk] at h
    split at h
    · cases h
    · rename_i pc hg
      split at h
      · simp at h
      · rename_i pl hpl
        split at h
        · cases h
        · rename_i pm hpm
          split at h
          · simp at h
          · rename_i hord
            rcases List.mem_cons.mp hp with hp | hp
            · subst hp
              exact ⟨pc, pl, pm, hg, hpl, hpm, by omega⟩
            · exact ih h p hp

/-- Inversion of a positive `can_be_assigned_to_module` check. -/
theorem can_be_assigned_ok_true {c : Course} {m l : Nat}
    {courses : CoursesMap} {teachers : TeachersMap} {strict : Bool}
    (h : c.can_be_assigned_to_module m l courses teachers strict = .ok true) :
    c.module_assigned = none ∧ c.min_layer ≤ l ∧
      ∀ p ∈ c.prereqs, ∃ pc pl pm, assocGet courses p = some pc ∧
        pc.layer_assigned = some pl ∧ pc.module_assigned = some pm ∧
        pl * 14 + pm < l * 14 + m := by
  unfold Course.can_be_assigned_to_module at h
  split at h
  · simp at h
  · rename_i hmod
    split at h
    · simp at h
    · rename_i hlay
      split at h
      · cases h
      · rename_i pre hpre
        split at h
        · simp at h
        · rename_i hpreT
          split at h
          · cases h
          · rename_i ordOk hord
            split at h
            · simp at h
            · rename_i hordT
              refine ⟨by simpa using hmod, by omega, ?_⟩
              have : ordOk = true := by
                cases ordOk
                · exact absurd rfl hordT
                · rfl
              subst this
              exact prereqOrder_ok_true hord

/-- Inversion of a successful `assign_to_module`: the feasibility check was
positive and the returned course is the original with exactly the three
assignment fields set. -/
theorem assign_ok_inv {c : Course} {m l : Nat} {courses : CoursesMap}
    {teachers : TeachersMap} {strict : Bool} {a : AssignResult}
    (h : c.assign_to_module m l courses teachers strict = .ok (some a)) :
    c.can_be_assigned_to_module m l courses teachers strict = .ok true ∧
    a.course = { c with
      module_assigned := some m
      layer_assigned := some l
      teacher_assigned := some a.teacher_name } := by
  unfold Course.assign_to_module at h
  split at h
  · cases h
  · rename_i can hcan
    split at h
    · simp at h
    · rename_i hcanT
      have hcantrue : can = true := by
        cases can
        · exact absurd rfl hcanT
        · rfl
      subst hcantrue
      split at h
      · cases h
      · simp at h
      · rename_i tname htname
        split at h
        · cases h
        · rename_i t ht
          dsimp only at h
          split at h
          · simp at h
          · simp only [Except.ok.injEq, Option.some.injEq] at h
            subst h
            exact ⟨hcan, rfl⟩

/-- Fact: `add_course` with `is_celebrity=False` never raises, keeps the celebrity
flag and appends the course. -/
theorem add_course_false_inv {md : Module} {c : CourseRef} {layer : Nat}
    {md' : Module} (h : md.add_course c layer false = .ok md') :
    md'.has_celebrity_course = md.has_celebrity_course ∧
    md'.courses = md.courses ++ [c] := by
  cases hp : c.part_of_chain <;>
    simp only [Module.add_course, hp, Bool.false_eq_true, false_and,
      if_false, ite_false, ite_true, Except.ok.injEq] at h <;>
    subst h <;> simp [hp]

/-- Fact: `add_course` with `is_celebrity=True` succeeds only on a module without
a celebrity course and without chained occupants; it then sets the flag and
appends the course. -/
theorem add_course_true_inv {md : Module} {c : CourseRef} {layer : Nat}
    {md' : Module} (h : md.add_course c layer true = .ok md') :
    md.has_celebrity_course = false ∧
    md.courses.any (·.part_of_chain) = false ∧
    md'.has_celebrity_course = true ∧
    md'.courses = md.courses ++ [c] := by
  unfold Module.add_course at h
  split at h
  · cases h
  · rename_i h1
    split at h
    · cases h
    · rename_i h2
      have hcel : md.has_celebrity_course = false := by
        cases hc : md.has_celebrity_course
        · rfl
        · exact absurd ⟨rfl, hc⟩ h1
      have hany : md.courses.any (·.part_of_chain) = false := by
        cases ha : md.courses.any (·.part_of_chain)
        · rfl
        · exact absurd ⟨rfl, ha⟩ h2
      refine ⟨hcel, hany, ?_⟩
      cases hp : c.part_of_chain <;>
        simp only [hp, Bool.false_eq_true, if_false, ite_false, ite_true,
          if_true, Except.ok.injEq] at h <;>
        subst h <;> simp [hp]

/-- A chained course passes `can_accept` only on a module without a
celebrity course. -/
theorem can_accept_chained {md : Module} {c : CourseRef} {layer : Nat}
    (h : md.can_accept c layer false = true) (hc : c.part_of_chain = true) :
    md.has_celebrity_course = false := by
  unfold Module.can_accept at h
  cases hcel : md.has_celebrity_course
  · rfl
  · rw [if_neg] at h
    · rw [if_pos ⟨hc, hcel⟩] at h
      cases h
    · intro hcap
      rw [if_pos hcap] at h
      cases h

/-- Full inversion of a pass-2 module visit: either the module was skipped
(or had no candidates) and nothing changed, or the minimal candidate was
assigned and placed. -/
theorem pass2Module_inv {layer : Nat} {strict : Bool} {st : SchedState}
    {un : List String} {m : Nat} {st' : SchedState} {un' : List String}
    {p : Nat} (h : pass2Module layer strict st un m = .ok (st', un', p)) :
    (st' = st ∧ un' = un ∧ p = 0) ∨
    (∃ md cands chosen a md',
      assocGet st.modules m = some md ∧
      md.has_celebrity_course = false ∧
      gatherCandidates st layer strict m un = .ok cands ∧
      pickMin candLt cands = some chosen ∧
      chosen.course.assign_to_module m layer st.courses st.teachers strict =
        .ok (some a) ∧
      md.add_course a.course.ref layer false = .ok md' ∧
      st' = { st with
        courses := assocSet st.courses chosen.key a.course
        teachers := assocSet st.teachers a.teacher_name a.teacher
        modules := assocSet st.modules m md' } ∧
      un' = removeFirst un chosen.key ∧ p = 1) := by
  unfold pass2Module at h
  split at h
  · cases h
  · rename_i md hmd
    split at h
    · simp only [Except.ok.injEq, Prod.mk.injEq] at h
      rcases h with ⟨rfl, rfl, rfl⟩
      exact Or.inl ⟨rfl, rfl, rfl⟩
    · rename_i hcel
      split at h
      · simp only [Except.ok.injEq, Prod.mk.injEq] at h
        rcases h with ⟨rfl, rfl, rfl⟩
        exact Or.inl ⟨rfl, rfl, rfl⟩
      · split at h
        · cases h
        · rename_i cands hcands
          split at h
          · simp only [Except.ok.injEq, Prod.mk.injEq] at h
            rcases h with ⟨rfl, rfl, rfl⟩
            exact Or.inl ⟨rfl, rfl, rfl⟩
          · rename_i chosen hchosen
            split at h
            · cases h
            · cases h
            · rename_i a ha
              split at h
              · cases h
              · rename_i md' hadd
                simp only [Except.ok.injEq, Prod.mk.injEq] at h
                rcases h with ⟨rfl, rfl, rfl⟩
                refine Or.inr ⟨md, cands, chosen, a, md', hmd, ?_, hcands,
                  hchosen, ha, hadd, rfl, rfl, rfl⟩
                cases hc : md.has_celebrity_course
                · rfl
                · exact absurd hc hcel

/-- Full inversion of a pass-3 module visit: either nothing changed (skip,
no candidate, or a silently skipped failed assignment), or the minimal
candidate was assigned and placed. -/
theorem pass3Module_inv {strict : Bool} {st : SchedState} {un : List String}
    {m : Nat} {st' : SchedState} {un' : List String} {p : Nat}
    (h : pass3Module strict st un m = .ok (st', un', p)) :
    (st' = st ∧ un' = un ∧ p = 0) ∨
    (∃ md cands chosen a md',
      assocGet st.modules m = some md ∧
      gather3 st strict m md un = .ok cands ∧
      pickMin cand3Lt cands = some chosen ∧
      chosen.course.assign_to_module m 0 st.courses st.teachers strict =
        .ok (some a) ∧
      md.add_course a.course.ref 0 false = .ok md' ∧
      st' = { st with
        courses := assocSet st.courses chosen.key a.course
        teachers := assocSet st.teachers a.teacher_name a.teacher
        modules := assocSet st.modules m md' } ∧
      un' = removeFirst un chosen.key ∧ p = 1) := by
  unfold pass3Module at h
  split at h
  · cases h
  · rename_i md hmd
    split at h
    · cases h
    · rename_i cands hcands
      split at h
      · simp only [Except.ok.injEq, Prod.mk.injEq] at h
        rcases h with ⟨rfl, rfl, rfl⟩
        exact Or.inl ⟨rfl, rfl, rfl⟩
      · rename_i chosen hchosen
        split at h
        · cases h
        · simp only [Except.ok.injEq, Prod.mk.injEq] at h
          rcases h with ⟨rfl, rfl, rfl⟩
          exact Or.inl ⟨rfl, rfl, rfl⟩
        · rename_i a ha
          split at h
          · cases h
          · rename_i md' hadd
            simp only [Except.ok.injEq, Prod.mk.injEq] at h
            rcases h with ⟨rfl, rfl, rfl⟩
            exact Or.inr ⟨md, cands, chosen, a, md', hmd, hcands, hchosen,
              ha, hadd, rfl, rfl, rfl⟩

/-- Any state predicate preserved by every pass-2 module visit is preserved
by a sub-phase sweep. -/
theorem pass2Sweep_preserve (P : SchedState → Prop) {layer : Nat}
    {strict : Bool}
    (hstep : ∀ st un m st' un' p,
      pass2Module layer strict st un m = .ok (st', un', p) → P st → P st') :
    ∀ {ms : List Nat} {st : SchedState} {un : List String}
      {st' : SchedState} {un' : List String} {p : Nat},
      pass2Sweep layer strict ms st un = .ok (st', un', p) → P st → P st' := by
  intro ms
  induction ms with
  | nil =>
    intro st un st' un' p h hP
    simp only [pass2Sweep, Except.ok.injEq, Prod.mk.injEq] at h
    rcases h with ⟨rfl, -, -⟩
    exact hP
  | cons m ms ih =>
    intro st un st' un' p h hP
    simp only [pass2Sweep] at h
    cases h1 : pass2Module layer strict st un m with
    | error e => rw [h1] at h; cases h
    | ok r1 =>
      obtain ⟨st1, un1, p1⟩ := r1
      rw [h1] at h
      dsimp only at h
      cases h2 : pass2Sweep layer strict ms st1 un1 with
      | error e => rw [h2] at h; cases h
      | ok r2 =>
        obtain ⟨st2, un2, p2⟩ := r2
        rw [h2] at h
        dsimp only at h
        simp only [Except.ok.injEq, Prod.mk.injEq] at h
        rcases h with ⟨rfl, -, -⟩
        exact ih h2 (hstep _ _ _ _ _ _ h1 hP)

/-- Preservation through a layer iteration (both sub-phases). -/
theorem pass2Phases_preserve (P : SchedState → Prop) {layer : Nat}
    (hstep : ∀ strict st un m st' un' p,
      pass2Module layer strict st un m = .ok (st', un', p) → P st → P st') :
    ∀ {phases : List Bool} {st : SchedState} {un : List String}
      {st' : SchedState} {un' : List String} {p : Nat},
      pass2Phases layer phases st un = .ok (st', un', p) → P st → P st' := by
  intro phases
  induction phases with
  | nil =>
    intro st un st' un' p h hP
    simp only [pass2Phases, Except.ok.injEq, Prod.mk.injEq] at h
    rcases h with ⟨rfl, -, -⟩
    exact hP
  | cons strict rest ih =>
    intro st un st' un' p h hP
    simp only [pass2Phases] at h
    cases h1 : pass2Sweep layer strict moduleNums st un with
    | error e => rw [h1] at h; cases h
    | ok r1 =>
      obtain ⟨st1, un1, p1⟩ := r1
      rw [h1] at h
      dsimp only at h
      have hP1 : P st1 := pass2Sweep_preserve P (hstep strict) h1 hP
      by_cases hp : p1 > 0
      · rw [if_pos hp] at h
        simp only [Except.ok.injEq, Prod.mk.injEq] at h
        rcases h with ⟨rfl, -, -⟩
        exact hP1
      · rw [if_neg hp] at h
        exact ih h hP1

/-- Preservation through the whole pass-2 layer loop. -/
theorem pass2Loop_preserve (P : SchedState → Prop) {max_layers : Nat}
    (hstep : ∀ layer strict st un m st' un' p,
      pass2Module layer strict st un m = .ok (st', un', p) → P st → P st') :
    ∀ (st : SchedState) (un : List String) (tot layer : Nat) {n : Nat}
      {st' : SchedState},
      pass2Loop max_layers st un tot layer = .ok (n, st') → P st → P st' := by
  intro st un tot layer
  refine pass2Loop.induct max_layers
    (fun st un tot layer => ∀ {n : Nat} {st' : SchedState},
      pass2Loop max_layers st un tot layer = .ok (n, st') → P st → P st')
    ?_ ?_ ?_ ?_ ?_ st un tot layer
  · intro st tot layer n st' h hP
    unfold pass2Loop at h
    rw [if_pos rfl] at h
    simp only [Except.ok.injEq, Prod.mk.injEq] at h
    rcases h with ⟨-, rfl⟩
    exact hP
  · intro st un tot layer hne hgt n st' h hP
    unfold pass2Loop at h
    rw [if_neg hne, if_pos hgt] at h
    simp only [Except.ok.injEq, Prod.mk.injEq] at h
    rcases h with ⟨-, rfl⟩
    exact hP
  · intro st un tot layer hne hgt e herr n st' h hP
    unfold pass2Loop at h
    rw [if_neg hne, if_neg hgt, herr] at h
    cases h
  · intro st un tot layer hne hgt st1 un1 hph ih n st' h hP
    unfold pass2Loop at h
    rw [if_neg hne, if_neg hgt, hph] at h
    dsimp only at h
    rw [if_pos rfl] at h
    exact ih h (pass2Phases_preserve P (fun s => hstep layer s) hph hP)
  · intro st un tot layer hne hgt st1 un1 p hph hp ih n st' h hP
    unfold pass2Loop at h
    rw [if_neg hne, if_neg hgt, hph] at h
    dsimp only at h
    rw [if_neg hp] at h
    exact ih h (pass2Phases_preserve P (fun s => hstep layer s) hph hP)

/-- Preservation through `pass2_chains`. -/
theorem pass2_chains_preserve (P : SchedState → Prop)
    (hstep : ∀ layer strict st un m st' un' p,
      pass2Module layer strict st un m = .ok (st', un', p) → P st → P st')
    {st : SchedState} {max_layers n : Nat} {st' : SchedState}
    (h : pass2_chains st max_layers = .ok (n, st')) (hP : P st) : P st' := by
  unfold pass2_chains at h
  exact pass2Loop_preserve P hstep st _ 0 0 h hP

/-- Any state predicate preserved by every pass-3 module visit is preserved
by a full sweep. -/
theorem pass3SweepList_preserve (P : SchedState → Prop) {strict : Bool}
    (hstep : ∀ st un m st' un' p,
      pass3Module strict st un m = .ok (st', un', p) → P st → P st') :
    ∀ {ms : List Nat} {st : SchedState} {un : List String}
      {st' : SchedState} {un' : List String} {p : Nat},
      pass3SweepList strict ms st un = .ok (st', un', p) → P st → P st' := by
  intro ms
  induction ms with
  | nil =>
    intro st un st' un' p h hP
    simp only [pass3SweepList, Except.ok.injEq, Prod.mk.injEq] at h
    rcases h with ⟨rfl, -, -⟩
    exact hP
  | cons m ms ih =>
    intro st un st' un' p h hP
    simp only [pass3SweepList] at h
    cases h1 : pass3Module strict st un m with
    | error e => rw [h1] at h; cases h
    | ok r1 =>
      obtain ⟨st1, un1, p1⟩ := r1
      rw [h1] at h
      dsimp only at h
      cases h2 : pass3SweepList strict ms st1 un1 with
      | error e => rw [h2] at h; cases h
      | ok r2 =>
        obtain ⟨st2, un2, p2⟩ := r2
        rw [h2] at h
        dsimp only at h
        simp only [Except.ok.injEq, Prod.mk.injEq] at h
        rcases h with ⟨rfl, -, -⟩
        exact ih h2 (hstep _ _ _ _ _ _ h1 hP)

/-- Preservation through one pass-3 phase loop. -/
theorem pass3While_preserve (P : SchedState → Prop) {strict : Bool}
    (hstep : ∀ st un m st' un' p,
      pass3Module strict st un m = .ok (st', un', p) → P st → P st') :
    ∀ (st : SchedState) (un : List String) (tot : Nat)
      {st' : SchedState} {un' : List String} {n : Nat},
      pass3While strict st un tot = .ok (st', un', n) → P st → P st' := by
  intro st un tot
  refine pass3While.induct strict
    (fun st un tot => ∀ {st' : SchedState} {un' : List String} {n : Nat},
      pass3While strict st un tot = .ok (st', un', n) → P st → P st')
    ?_ ?_ ?_ ?_ st un tot
  · intro st tot st' un' n h hP
    unfold pass3While at h
    rw [if_pos rfl] at h
    simp only [Except.ok.injEq, Prod.mk.injEq] at h
    rcases h with ⟨rfl, -, -⟩
    exact hP
  · intro st un tot hne e herr st' un' n h hP
    unfold pass3While at h
    rw [if_neg hne, herr] at h
    cases h
  · intro st un tot hne st1 un1 hsw st' un' n h hP
    unfold pass3While at h
    rw [if_neg hne, hsw] at h
    dsimp only at h
    rw [if_pos rfl] at h
    simp only [Except.ok.injEq, Prod.mk.injEq] at h
    rcases h with ⟨rfl, -, -⟩
    exact pass3SweepList_preserve P hstep hsw hP
  · intro st un tot hne st1 un1 p hsw hp ih st' un' n h hP
    unfold pass3While at h
    rw [if_neg hne, hsw] at h
    dsimp only at h
    rw [if_neg hp] at h
    exact ih h (pass3SweepList_preserve P hstep hsw hP)

/-- Preservation through `pass3_solitary`. -/
theorem pass3_solitary_preserve (P : SchedState → Prop)
    (hstep : ∀ strict st un m st' un' p,
      pass3Module strict st un m = .ok (st', un', p) → P st → P st')
    {st : SchedState} {n : Nat} {st' : SchedState}
    (h : pass3_solitary st = .ok (n, st')) (hP : P st) : P st' := by
  unfold pass3_solitary at h
  cases h1 : pass3While true st
      ((st.courses.filter (fun e =>
          decide (e.2.module_assigned = none))).map (fun e => e.1)) 0 with
  | error e => rw [h1] at h; cases h
  | ok r1 =>
    obtain ⟨st1, un1, p1⟩ := r1
    rw [h1] at h
    dsimp only at h
    have hP1 : P st1 := pass3While_preserve P (hstep true) st _ 0 h1 hP
    by_cases hu : un1 = []
    · rw [if_pos hu] at h
      simp only [Except.ok.injEq, Prod.mk.injEq] at h
      rcases h with ⟨-, rfl⟩
      exact hP1
    · rw [if_neg hu] at h
      cases h2 : pass3While false st1 un1 p1 with
      | error e => rw [h2] at h; cases h
      | ok r2 =>
        obtain ⟨st2, un2, p2⟩ := r2
        rw [h2] at h
        dsimp only at h
        simp only [Except.ok.injEq, Prod.mk.injEq] at h
        rcases h with ⟨-, rfl⟩
        exact pass3While_preserve P (hstep false) st1 un1 p1 h2 hP1

/-- Executable checker of the C9 premise: the course at `pKey` has an
assigned module but no assigned layer (the state Pass 1 leaves a fixed
placement in), and the course at `uKey` is unassigned with `pKey` among its
prerequisites. -/
def inv9check (st : SchedState) (pKey uKey : String) : Bool :=
  (match assocGet st.courses pKey with
   | some pc =>
     decide (pc.module_assigned ≠ none) && decide (pc.layer_assigned = none)
   | none => false) &&
  (match assocGet st.courses uKey with
   | some uc =>
     decide (pKey ∈ uc.prereqs) && decide (uc.module_assigned = none)
   | none => false)

theorem inv9check_spec {st : SchedState} {pKey uKey : String}
    (h : inv9check st pKey uKey = true) :
    ∃ pc uc, assocGet st.courses pKey = some pc ∧
      pc.module_assigned ≠ none ∧ pc.layer_assigned = none ∧
      assocGet st.courses uKey = some uc ∧ pKey ∈ uc.prereqs ∧
      uc.module_assigned = none := by
  unfold inv9check at h
  rw [Bool.and_eq_true] at h
  obtain ⟨h1, h2⟩ := h
  split at h1
  · rename_i pc hpc
    rw [Bool.and_eq_true, decide_eq_true_eq, decide_eq_true_eq] at h1
    split at h2
    · rename_i uc huc
      rw [Bool.and_eq_true, decide_eq_true_eq, decide_eq_true_eq] at h2
      exact ⟨pc, uc, hpc, h1.1, h1.2, huc, h2.1, h2.2⟩
    · cases h2
  · cases h1

theorem inv9check_congr {st st' : SchedState} {pKey uKey : String}
    (hp : assocGet st'.courses pKey = assocGet st.courses pKey)
    (hu : assocGet st'.courses uKey = assocGet st.courses uKey) :
    inv9check st' pKey uKey = inv9check st pKey uKey := by
  unfold inv9check
  rw [hp, hu]

/-- A successful assignment can touch neither `pKey` (already assigned) nor
`uKey` (its prerequisite has no layer), so the C9 premise survives it. -/
theorem inv9_assign_preserved {st : SchedState} {pKey uKey key : String}
    {c0 : Course} {m l : Nat} {strict : Bool} {a : AssignResult}
    {T : TeachersMap} {M : AMap Nat Module}
    (hinv : inv9check st pKey uKey = true)
    (hget : assocGet st.courses key = some c0)
    (ha : c0.assign_to_module m l st.courses st.teachers strict =
      .ok (some a)) :
    inv9check
      { teachers := T, courses := assocSet st.courses key a.course,
        modules := M } pKey uKey = true := by
  obtain ⟨pc, uc, hpg, hpm, hpl, hug, hupre, hum⟩ := inv9check_spec hinv
  obtain ⟨hcan, -⟩ := assign_ok_inv ha
  obtain ⟨hc0m, -, hpre⟩ := can_be_assigned_ok_true hcan
  have hkp : pKey ≠ key := by
    intro he
    subst he
    rw [hget] at hpg
    injection hpg with hcc
    exact hpm (hcc ▸ hc0m)
  have hku : uKey ≠ key := by
    intro he
    subst he
    rw [hget] at hug
    injection hug with hcc
    obtain ⟨pc', pl, pm, hg', hl', -, -⟩ :=
      hpre pKey (by rw [hcc]; exact hupre)
    rw [hpg] at hg'
    injection hg' with h2
    rw [← h2, hpl] at hl'
    cases hl'
  rw [inv9check_congr (assocGet_assocSet_ne _ _ _ _ hkp)
    (assocGet_assocSet_ne _ _ _ _ hku)]
  exact hinv

theorem inv9_pass2Module {pKey uKey : String} (layer : Nat) (strict : Bool)
    (st : SchedState) (un : List String) (m : Nat) (st' : SchedState)
    (un' : List String) (p : Nat)
    (h : pass2Module layer strict st un m = .ok (st', un', p))
    (hinv : inv9check st pKey uKey = true) :
    inv9check st' pKey uKey = true := by
  rcases pass2Module_inv h with ⟨rfl, -, -⟩ |
    ⟨md, cands, chosen, a, md', -, -, hcands, hchosen, ha, -, rfl, -, -⟩
  · exact hinv
  · exact inv9_assign_preserved hinv
      (gatherCandidates_key_mem hcands chosen
        (pickMin_mem candLt hchosen)).2 ha

theorem inv9_pass3Module {pKey uKey : String} (strict : Bool)
    (st : SchedState) (un : List String) (m : Nat) (st' : SchedState)
    (un' : List String) (p : Nat)
    (h : pass3Module strict st un m = .ok (st', un', p))
    (hinv : inv9check st pKey uKey = true) :
    inv9check st' pKey uKey = true := by
  rcases pass3Module_inv h with ⟨rfl, -, -⟩ |
    ⟨md, cands, chosen, a, md', -, hcands, hchosen, ha, -, rfl, -, -⟩
  · exact hinv
  · exact inv9_assign_preserved hinv
      (gather3_key_mem hcands chosen (pickMin_mem cand3Lt hchosen)).2.1 ha

/-- C9: a unit whose prerequisite was placed by Pass 1 (module assigned but
`layer_assigned` still `None`) can never pass `can_be_assigned_to_module`,
and it stays unassigned through Pass 2 and Pass 3 — and its Pass-1
prerequisite keeps its layerless state. -/
theorem c9_celebrity_prereq_blocks (st : SchedState) (pKey uKey : String)
    (hinv : inv9check st pKey uKey = true) :
    (∀ uc, assocGet st.courses uKey = some uc → ∀ m l strict,
      uc.can_be_assigned_to_module m l st.courses st.teachers strict ≠
        .ok true) ∧
    (∀ max_layers n st', pass2_chains st max_layers = .ok (n, st') →
      inv9check st' pKey uKey = true) ∧
    (∀ n st', pass3_solitary st = .ok (n, st') →
      inv9check st' pKey uKey = true) := by
  refine ⟨?_, ?_, ?_⟩
  · intro uc huc m l strict hok
    obtain ⟨pc, uc0, hpg, -, hpl, hug, hupre, -⟩ := inv9check_spec hinv
    rw [huc] at hug
    injection hug with he
    obtain ⟨-, -, hpre⟩ := can_be_assigned_ok_true hok
    obtain ⟨pc', pl, pm, hg', hl', -, -⟩ :=
      hpre pKey (by rw [he]; exact hupre)
    rw [hpg] at hg'
    injection hg' with h2
    rw [← h2, hpl] at hl'
    cases hl'
  · intro max_layers n st' h
    exact pass2_chains_preserve (fun s => inv9check s pKey uKey = true)
      (fun layer strict s u m s' u' p hm hP =>
        inv9_pass2Module layer strict s u m s' u' p hm hP) h hinv
  · intro n st' h
    exact pass3_solitary_preserve (fun s => inv9check s pKey uKey = true)
      (fun strict s u m s' u' p hm hP =>
        inv9_pass3Module strict s u m s' u' p hm hP) h hinv

/-- A Pass-1 placed prerequisite course for the C9 witness scenario. -/
def celebP : Course :=
  { name := "P"
    part_of_chain := false
    min_layer := 0
    prereqs := []
    possible_teachers := ["T"]
    module_assigned := some 1
    teacher_assigned := some "T"
    layer_assigned := none
    is_celebrity := true }

/-- A course depending on the Pass-1 fixed course `P`. -/
def depU : Course :=
  { name := "U"
    part_of_chain := false
    min_layer := 0
    prereqs := ["P"]
    possible_teachers := []
    module_assigned := none
    teacher_assigned := none
    layer_assigned := none
    is_celebrity := false }

def stW9 : SchedState :=
  { teachers := [("T", tT)]
    courses := [("P", celebP), ("U", depU)]
    modules := modules14 }

theorem c9_celebrity_prereq_blocks_witness :
    (∀ uc, assocGet stW9.courses "U" = some uc → ∀ m l strict,
      uc.can_be_assigned_to_module m l stW9.courses stW9.teachers strict ≠
        .ok true) ∧
    (∀ max_layers n st', pass2_chains stW9 max_layers = .ok (n, st') →
      inv9check st' "P" "U" = true) ∧
    (∀ n st', pass3_solitary stW9 = .ok (n, st') →
      inv9check st' "P" "U" = true) :=
  c9_celebrity_prereq_blocks stW9 "P" "U" (by decide)

/-- Executable checker of the C10 premise: the course at `uKey` is
unassigned and requires at least layer 1. -/
def inv10check (st : SchedState) (uKey : String) : Bool :=
  match assocGet st.courses uKey with
  | some uc => decide (uc.module_assigned = none) && decide (1 ≤ uc.min_layer)
  | none => false

theorem inv10check_spec {st : SchedState} {uKey : String}
    (h : inv10check st uKey = true) :
    ∃ uc, assocGet st.courses uKey = some uc ∧ uc.module_assigned = none ∧
      1 ≤ uc.min_layer := by
  unfold inv10check at h
  split at h
  · rename_i uc huc
    rw [Bool.and_eq_true, decide_eq_true_eq, decide_eq_true_eq] at h
    exact ⟨uc, huc, h.1, h.2⟩
  · cases h

theorem inv10check_congr {st st' : SchedState} {uKey : String}
    (hu : assocGet st'.courses uKey = assocGet st.courses uKey) :
    inv10check st' uKey = inv10check st uKey := by
  unfold inv10check
  rw [hu]

theorem inv10_pass3Module {uKey : String} (strict : Bool) (st : SchedState)
    (un : List String) (m : Nat) (st' : SchedState) (un' : List String)
    (p : Nat) (h : pass3Module strict st un m = .ok (st', un', p))
    (hinv : inv10check st uKey = true) : inv10check st' uKey = true := by
  rcases pass3Module_inv h with ⟨rfl, -, -⟩ |
    ⟨md, cands, chosen, a, md', -, hcands, hchosen, ha, -, rfl, -, -⟩
  · exact hinv
  · obtain ⟨uc, hug, hum, humin⟩ := inv10check_spec hinv
    have hget := (gather3_key_mem hcands chosen
      (pickMin_mem cand3Lt hchosen)).2.1
    obtain ⟨hcan, -⟩ := assign_ok_inv ha
    obtain ⟨-, hmin, -⟩ := can_be_assigned_ok_true hcan
    have hku : uKey ≠ chosen.key := by
      intro he
      subst he
      rw [hget] at hug
      injection hug with hcc
      rw [← hcc] at humin
      omega
    rw [inv10check_congr (assocGet_assocSet_ne _ _ _ _ hku)]
    exact hinv

/-- C10: a unit with `min_layer ≥ 1` that is unassigned when Pass 3 starts
is still unassigned when Pass 3 returns: Pass 3 only attempts layer 0, and
`can_be_assigned_to_module` rejects any layer below `min_layer`, so the
attempt fails, is skipped silently, and the unit's assignment fields stay
unset. -/
theorem c10_min_layer_survives_pass3 (st : SchedState) (uKey : String)
    (hinv : inv10check st uKey = true) :
    ∀ n st', pass3_solitary st = .ok (n, st') →
      inv10check st' uKey = true := by
  intro n st' h
  exact pass3_solitary_preserve (fun s => inv10check s uKey = true)
    (fun strict s u m s' u' p hm hP =>
      inv10_pass3Module strict s u m s' u' p hm hP) h hinv

/-- An unassigned course requiring layer ≥ 1, for the C10 witness. -/
def lateL : Course :=
  { name := "L"
    part_of_chain := true
    min_layer := 1
    prereqs := []
    possible_teachers := ["T"]
    module_assigned := none
    teacher_assigned := none
    layer_assigned := none
    is_celebrity := false }

def stW10 : SchedState :=
  { teachers := [("T", tT)]
    courses := [("L", lateL)]
    modules := modules14 }

theorem c10_min_layer_survives_pass3_witness :
    pass3_solitary stW10 = .ok (0, stW10) ∧ inv10check stW10 "L" = true := by
  have hsw1 : pass3SweepList true (sortedModuleNums stW10) stW10 ["L"] =
      .ok (stW10, ["L"], 0) := by decide
  have hsw2 : pass3SweepList false (sortedModuleNums stW10) stW10 ["L"] =
      .ok (stW10, ["L"], 0) := by decide
  have hw1 : pass3While true stW10 ["L"] 0 = .ok (stW10, ["L"], 0) := by
    unfold pass3While
    rw [if_neg (by decide), hsw1]
    dsimp only
    rw [if_pos rfl]
  have hw2 : pass3While false stW10 ["L"] 0 = .ok (stW10, ["L"], 0) := by
    unfold pass3While
    rw [if_neg (by decide), hsw2]
    dsimp only
    rw [if_pos rfl]
  have hfilter : (stW10.courses.filter (fun e =>
      decide (e.2.module_assigned = none))).map (fun e => e.1) = ["L"] := by
    decide
  have hrun : pass3_solitary stW10 = .ok (0, stW10) := by
    unfold pass3_solitary
    rw [hfilter, hw1]
    dsimp only
    rw [if_neg (by decide), hw2]
  exact ⟨hrun,
    c10_min_layer_survives_pass3 stW10 "L" (by decide) 0 stW10 hrun⟩

/-- Full inversion of a successful Pass-1 row: the looked-up entities, the
positive checks, and the resulting state update.  The updated course sets
`module_assigned`, `teacher_assigned` and `is_celebrity` only. -/
theorem pass1Row_inv {st : SchedState} {row : String × Nat × String}
    {st' : SchedState} (h : pass1Row st row = .ok st') :
    ∃ md course teacher md',
      assocGet st.modules row.2.1 = some md ∧
      assocGet st.courses (pyStrip row.1) = some course ∧
      assocGet st.teachers (pyStrip row.2.2) = some teacher ∧
      course.module_assigned = none ∧
      md.add_course (Course.ref { course with
          module_assigned := some row.2.1
          teacher_assigned := some (pyStrip row.2.2)
          is_celebrity := true }) 0 true = .ok md' ∧
      (teacher.assign_to (pyStrip row.1) row.2.1).1 = true ∧
      st' = { teachers := assocSet st.teachers (pyStrip row.2.2)
                (teacher.assign_to (pyStrip row.1) row.2.1).2
              courses := assocSet st.courses (pyStrip row.1)
                { course with
                    module_assigned := some row.2.1
                    teacher_assigned := some (pyStrip row.2.2)
                    is_celebrity := true }
              modules := assocSet st.modules row.2.1 md' } := by
  unfold pass1Row at h
  dsimp only at h
  split at h
  · cases h
  · split at h
    · cases h
    · rename_i md hmd
      split at h
      · cases h
      · rename_i course hcourse
        split at h
        · cases h
        · rename_i teacher hteacher
          split at h
          · cases h
          · rename_i hmodnone
            split at h
            · cases h
            · split at h
              · cases h
              · split at h
                · cases h
                · split at h
                  · cases h
                  · rename_i hr1
                    split at h
                    · cases h
                    · rename_i md' hadd
                      simp only [Except.ok.injEq] at h
                      subst h
                      refine ⟨md, course, teacher, md', hmd, hcourse,
                        hteacher, not_ne_iff.mp hmodnone, hadd, ?_, rfl⟩
                      cases hx : (teacher.assign_to (pyStrip row.1)
                          row.2.1).1
                      · exact absurd hx hr1
                      · rfl

/-- Pass-1 rows never change any course's `part_of_chain` flag. -/
theorem pass1Row_part_stable {st : SchedState} {row : String × Nat × String}
    {st' : SchedState} (h : pass1Row st row = .ok st') {k : String}
    {c' : Course} (hk : assocGet st'.courses k = some c') :
    ∃ c, assocGet st.courses k = some c ∧
      c'.part_of_chain = c.part_of_chain := by
  obtain ⟨md, course, teacher, md', -, hcourse, -, -, -, -, rfl⟩ :=
    pass1Row_inv h
  by_cases he : k = pyStrip row.1
  · subst he
    dsimp only at hk
    rw [assocGet_assocSet_self] at hk
    injection hk with he2
    exact ⟨course, hcourse, by rw [← he2]⟩
  · dsimp only at hk
    rw [assocGet_assocSet_ne _ _ _ _ he] at hk
    exact ⟨c', hk, rfl⟩

/-- Generic preservation through the Pass-1 loop. -/
theorem pass1Loop_preserve (P : SchedState → Prop)
    (hstep : ∀ st row st', pass1Row st row = .ok st' → P st → P st') :
    ∀ {rows : List (String × Nat × String)} {st : SchedState} {acc n : Nat}
      {st' : SchedState},
      pass1Loop st acc rows = .ok (n, st') → P st → P st' := by
  intro rows
  induction rows with
  | nil =>
    intro st acc n st' h hP
    simp only [pass1Loop, Except.ok.injEq, Prod.mk.injEq] at h
    rcases h with ⟨-, rfl⟩
    exact hP
  | cons row rest ih =>
    intro st acc n st' h hP
    simp only [pass1Loop] at h
    cases h1 : pass1Row st row with
    | error e => rw [h1] at h; cases h
    | ok st1 =>
      rw [h1] at h
      dsimp only at h
      exact ih h (hstep st row st1 h1 hP)

/-- Executable checker of spec §8's mutual-exclusion invariant: no slot
with a fixed (celebrity) occupant holds any chained occupant. -/
def inv2check (st : SchedState) : Bool :=
  st.modules.all (fun e =>
    if e.2.has_celebrity_course then
      e.2.courses.all (fun r => ! r.part_of_chain)
    else true)

theorem inv2check_spec {st : SchedState} (h : inv2check st = true) :
    ∀ mn md, (mn, md) ∈ st.modules → md.has_celebrity_course = true →
      ∀ r ∈ md.courses, r.part_of_chain = false := by
  intro mn md hmem hcel r hr
  rw [inv2check, List.all_eq_true] at h
  have h2 := h (mn, md) hmem
  rw [if_pos hcel, List.all_eq_true] at h2
  simpa using h2 r hr

theorem inv2check_intro {st : SchedState}
    (h : ∀ mn md, (mn, md) ∈ st.modules → md.has_celebrity_course = true →
      ∀ r ∈ md.courses, r.part_of_chain = false) : inv2check st = true := by
  rw [inv2check, List.all_eq_true]
  intro e he
  obtain ⟨mn, md⟩ := e
  by_cases hc : md.has_celebrity_course = true
  · rw [if_pos hc, List.all_eq_true]
    intro r hr
    simpa using h mn md he hc r hr
  · rw [if_neg hc]

theorem inv2_pass2Module (layer : Nat) (strict : Bool) (st : SchedState)
    (un : List String) (m : Nat) (st' : SchedState) (un' : List String)
    (p : Nat) (h : pass2Module layer strict st un m = .ok (st', un', p))
    (hinv : inv2check st = true) : inv2check st' = true := by
  rcases pass2Module_inv h with ⟨rfl, -, -⟩ |
    ⟨md, cands, chosen, a, md', hmd, hcel, -, -, -, hadd, rfl, -, -⟩
  · exact hinv
  · obtain ⟨hceleq, hcourses⟩ := add_course_false_inv hadd
    apply inv2check_intro
    intro mn md0 hmem hc r hr
    rcases mem_assocSet hmem with heq | hmem'
    · rw [Prod.mk.injEq] at heq
      obtain ⟨rfl, rfl⟩ := heq
      rw [hceleq, hcel] at hc
      cases hc
    · exact inv2check_spec hinv mn md0 hmem' hc r hr

theorem inv2_pass3Module (strict : Bool) (st : SchedState)
    (un : List String) (m : Nat) (st' : SchedState) (un' : List String)
    (p : Nat) (h : pass3Module strict st un m = .ok (st', un', p))
    (hinv : inv2check st = true) : inv2check st' = true := by
  rcases pass3Module_inv h with ⟨rfl, -, -⟩ |
    ⟨md, cands, chosen, a, md', hmd, hcands, hchosen, ha, hadd, rfl, -, -⟩
  · exact hinv
  · obtain ⟨hceleq, hcourses⟩ := add_course_false_inv hadd
    obtain ⟨-, -, hacc⟩ := gather3_key_mem hcands chosen
      (pickMin_mem cand3Lt hchosen)
    obtain ⟨-, hacourse⟩ := assign_ok_inv ha
    apply inv2check_intro
    intro mn md0 hmem hc r hr
    rcases mem_assocSet hmem with heq | hmem'
    · rw [Prod.mk.injEq] at heq
      obtain ⟨rfl, rfl⟩ := heq
      rw [hceleq] at hc
      rw [hcourses] at hr
      rcases List.mem_append.mp hr with hr | hr
      · exact inv2check_spec hinv _ md (assocGet_mem hmd) hc r hr
      · simp only [List.mem_singleton] at hr
        subst hr
        have hrefpart : a.course.ref.part_of_chain =
            chosen.course.ref.part_of_chain := by
          rw [hacourse]
          rfl
        cases hpart : chosen.course.ref.part_of_chain
        · rw [hrefpart, hpart]
        · rw [can_accept_chained hacc hpart] at hc
          cases hc
    · exact inv2check_spec hinv mn md0 hmem' hc r hr

theorem inv2_pass1Row {st : SchedState} {row : String × Nat × String}
    {st' : SchedState} (h : pass1Row st row = .ok st')
    (hrow : ∀ c, assocGet st.courses (pyStrip row.1) = some c →
      c.part_of_chain = false)
    (hinv : inv2check st = true) : inv2check st' = true := by
  obtain ⟨md, course, teacher, md', hmd, hcourse, -, -, hadd, -, rfl⟩ :=
    pass1Row_inv h
  obtain ⟨hcel0, hany, hcel1, hcourses⟩ := add_course_true_inv hadd
  apply inv2check_intro
  intro mn md0 hmem hc r hr
  rcases mem_assocSet hmem with heq | hmem'
  · rw [Prod.mk.injEq] at heq
    obtain ⟨rfl, rfl⟩ := heq
    rw [hcourses] at hr
    rcases List.mem_append.mp hr with hr | hr
    · rw [List.any_eq_false] at hany
      have := hany r hr
      simpa using this
    · simp only [List.mem_singleton] at hr
      subst hr
      exact hrow course hcourse
  · exact inv2check_spec hinv mn md0 hmem' hc r hr

/-- Pass-1 preservation of the exclusivity invariant, provided no row names
a chained course. -/
theorem pass1Loop_inv2 :
    ∀ {rows : List (String × Nat × String)} {st : SchedState} {acc n : Nat}
      {st' : SchedState},
      pass1Loop st acc rows = .ok (n, st') →
      (∀ row ∈ rows, ∀ c, assocGet st.courses (pyStrip row.1) = some c →
        c.part_of_chain = false) →
      inv2check st = true → inv2check st' = true := by
  intro rows
  induction rows with
  | nil =>
    intro st acc n st' h hrows hinv
    simp only [pass1Loop, Except.ok.injEq, Prod.mk.injEq] at h
    rcases h with ⟨-, rfl⟩
    exact hinv
  | cons row rest ih =>
    intro st acc n st' h hrows hinv
    simp only [pass1Loop] at h
    cases h1 : pass1Row st row with
    | error e => rw [h1] at h; cases h
    | ok st1 =>
      rw [h1] at h
      dsimp only at h
      refine ih h ?_ (inv2_pass1Row h1
        (fun c hc => hrows row (List.mem_cons_self _ _) c hc) hinv)
      intro row' hrow' c hc
      obtain ⟨c0, hc0, hpart⟩ := pass1Row_part_stable h1 hc
      rw [hpart]
      exact hrows row' (List.mem_cons_of_mem _ hrow') c0 hc0

/-- C2 (amended): after each pass, no slot simultaneously has a fixed
(celebrity) occupant and a chained occupant — provided, for Pass 1, that no
fixed-placement row names a chained course.  (On inputs where a Pass-1 row
does name a chained unit the original claim fails; see the
counterexample.) -/
theorem c2_no_fixed_with_chained (st : SchedState) :
    (∀ rows n st',
      (∀ row ∈ rows, ∀ c, assocGet st.courses (pyStrip row.1) = some c →
        c.part_of_chain = false) →
      pass1_celebrity st rows = .ok (n, st') →
      inv2check st = true → inv2check st' = true) ∧
    (∀ max_layers n st', pass2_chains st max_layers = .ok (n, st') →
      inv2check st = true → inv2check st' = true) ∧
    (∀ n st', pass3_solitary st = .ok (n, st') →
      inv2check st = true → inv2check st' = true) := by
  refine ⟨?_, ?_, ?_⟩
  · intro rows n st' hrows h hinv
    exact pass1Loop_inv2 h hrows hinv
  · intro max_layers n st' h hinv
    exact pass2_chains_preserve (fun s => inv2check s = true)
      (fun layer strict s u m s' u' p hm hP =>
        inv2_pass2Module layer strict s u m s' u' p hm hP) h hinv
  · intro n st' h hinv
    exact pass3_solitary_preserve (fun s => inv2check s = true)
      (fun strict s u m s' u' p hm hP =>
        inv2_pass3Module strict s u m s' u' p hm hP) h hinv

theorem c2_no_fixed_with_chained_witness :
    inv2check stScenario1 = true ∧
    (pass1_celebrity stScenario1 [("CS101", 5, "Alice")]).isOk = true ∧
    (∀ n st',
      pass1_celebrity stScenario1 [("CS101", 5, "Alice")] = .ok (n, st') →
      inv2check st' = true) := by
  refine ⟨by decide, by decide, ?_⟩
  intro n st' h
  exact (c2_no_fixed_with_chained stScenario1).1 [("CS101", 5, "Alice")]
    n st' (by decide) h (by decide)

/-- One prerequisite's contribution to spec §8's ordering invariant: it
resolves, is fully assigned, and its flattened index is below `abs`. -/
def prereqOkB (courses : CoursesMap) (abs : Nat) (p : String) : Bool :=
  match assocGet courses p with
  | some pc =>
    match pc.module_assigned, pc.layer_assigned with
    | some pm, some pl => decide (pl * 14 + pm < abs)
    | _, _ => false
  | none => false

/-- Spec §8's ordering fact for one course: if it is assigned (module and
layer), every prerequisite is assigned strictly earlier in the flattened
`layer*14 + slot` order; a course with a module but no layer fails the
check; an unassigned course passes vacuously. -/
def chainOrderOkB (courses : CoursesMap) (c : Course) : Bool :=
  match c.module_assigned, c.layer_assigned with
  | some m, some l => c.prereqs.all (prereqOkB courses (l * 14 + m))
  | some _, none => false
  | none, _ => true

theorem prereqOkB_spec {courses : CoursesMap} {abs : Nat} {p : String}
    (h : prereqOkB courses abs p = true) :
    ∃ pc pm pl, assocGet courses p = some pc ∧
      pc.module_assigned = some pm ∧ pc.layer_assigned = some pl ∧
      pl * 14 + pm < abs := by
  unfold prereqOkB at h
  split at h
  · rename_i pc hpc
    split at h
    · rename_i pm pl hpm hpl
      exact ⟨pc, pm, pl, hpc, hpm, hpl, decide_eq_true_eq.mp h⟩
    · cases h
  · cases h

theorem prereqOkB_intro {courses : CoursesMap} {abs : Nat} {p : String}
    {pc : Course} {pm pl : Nat}
    (hpc : assocGet courses p = some pc) (hpm : pc.module_assigned = some pm)
    (hpl : pc.layer_assigned = some pl) (hlt : pl * 14 + pm < abs) :
    prereqOkB courses abs p = true := by
  unfold prereqOkB
  rw [hpc]
  dsimp only
  rw [hpm, hpl]
  dsimp only
  exact decide_eq_true hlt

/-- Updating the binding of an UNASSIGNED course cannot disturb the
ordering fact of any course that already satisfied it (all its
prerequisites are assigned, hence bound at other keys). -/
theorem chainOrderOkB_preserved {courses : CoursesMap} {key : String}
    {c0 v c : Course} (hget : assocGet courses key = some c0)
    (hc0 : c0.module_assigned = none) (h : chainOrderOkB courses c = true) :
    chainOrderOkB (assocSet courses key v) c = true := by
  unfold chainOrderOkB at h ⊢
  cases hm : c.module_assigned with
  | none => rfl
  | some m =>
    rw [hm] at h
    cases hl : c.layer_assigned with
    | none =>
      rw [hl] at h
      simp at h
    | some l =>
      rw [hl] at h
      dsimp only at h ⊢
      rw [List.all_eq_true] at h ⊢
      intro p hp
      obtain ⟨pc, pm, pl, hpc, hpm, hpl, hlt⟩ := prereqOkB_spec (h p hp)
      have hne : p ≠ key := by
        intro he
        subst he
        rw [hget] at hpc
        injection hpc with hcc
        rw [← hcc, hc0] at hpm
        cases hpm
      exact prereqOkB_intro
        (by rw [assocGet_assocSet_ne _ _ _ _ hne]; exact hpc) hpm hpl hlt

/-- The freshly assigned course satisfies the ordering fact in the updated
map, by the facts `can_be_assigned_to_module` just checked. -/
theorem chainOrderOkB_new {courses : CoursesMap} {key : String} {c0 : Course}
    {m l : Nat} {tname : String} {v : Course}
    (hget : assocGet courses key = some c0)
    (hc0 : c0.module_assigned = none)
    (hv : v = { c0 with
      module_assigned := some m
      layer_assigned := some l
      teacher_assigned := some tname })
    (hpre : ∀ p ∈ c0.prereqs, ∃ pc pl pm, assocGet courses p = some pc ∧
      pc.layer_assigned = some pl ∧ pc.module_assigned = some pm ∧
      pl * 14 + pm < l * 14 + m) :
    chainOrderOkB (assocSet courses key v) v = true := by
  subst hv
  unfold chainOrderOkB
  dsimp only
  rw [List.all_eq_true]
  intro p hp
  obtain ⟨pc, pl, pm, hpc, hpl, hpm, hlt⟩ := hpre p hp
  have hne : p ≠ key := by
    intro he
    subst he
    rw [hget] at hpc
    injection hpc with hcc
    rw [← hcc, hc0] at hpm
    cases hpm
  exact prereqOkB_intro
    (by rw [assocGet_assocSet_ne _ _ _ _ hne]; exact hpc) hpm hpl hlt

/-- Executable checker of spec §8's chain-ordering invariant, restricted to
units not placed by Pass 1 (`is_celebrity = false`). -/
def inv3check (st : SchedState) : Bool :=
  st.courses.all (fun e =>
    if e.2.part_of_chain && ! e.2.is_celebrity then
      chainOrderOkB st.courses e.2
    else true)

theorem inv3check_spec {st : SchedState} (h : inv3check st = true) :
    ∀ k c, (k, c) ∈ st.courses → c.part_of_chain = true →
      c.is_celebrity = false → chainOrderOkB st.courses c = true := by
  intro k c hmem hp hcel
  rw [inv3check, List.all_eq_true] at h
  have h2 := h (k, c) hmem
  rw [if_pos (by simp [hp, hcel])] at h2
  exact h2

theorem inv3check_intro {st : SchedState}
    (h : ∀ k c, (k, c) ∈ st.courses → c.part_of_chain = true →
      c.is_celebrity = false → chainOrderOkB st.courses c = true) :
    inv3check st = true := by
  rw [inv3check, List.all_eq_true]
  intro e he
  obtain ⟨k, c⟩ := e
  by_cases hc : (c.part_of_chain && ! c.is_celebrity) = true
  · rw [if_pos hc]
    rw [Bool.and_eq_true, Bool.not_eq_true'] at hc
    exact h k c he hc.1 hc.2
  · rw [if_neg hc]

theorem inv3_assign_preserved {st : SchedState} {key : String} {c0 : Course}
    {m l : Nat} {strict : Bool} {a : AssignResult} {T : TeachersMap}
    {M : AMap Nat Module}
    (hinv : inv3check st = true)
    (hget : assocGet st.courses key = some c0)
    (ha : c0.assign_to_module m l st.courses st.teachers strict =
      .ok (some a)) :
    inv3check
      { teachers := T, courses := assocSet st.courses key a.course,
        modules := M } = true := by
  obtain ⟨hcan, hacourse⟩ := assign_ok_inv ha
  obtain ⟨hc0m, -, hpre⟩ := can_be_assigned_ok_true hcan
  apply inv3check_intro
  intro k c hmem hp hcel
  dsimp only at hmem ⊢
  rcases mem_assocSet hmem with heq | hmem'
  · rw [Prod.mk.injEq] at heq
    obtain ⟨rfl, rfl⟩ := heq
    exact chainOrderOkB_new hget hc0m hacourse hpre
  · exact chainOrderOkB_preserved hget hc0m
      (inv3check_spec hinv k c hmem' hp hcel)

theorem inv3_pass2Module (layer : Nat) (strict : Bool) (st : SchedState)
    (un : List String) (m : Nat) (st' : SchedState) (un' : List String)
    (p : Nat) (h : pass2Module layer strict st un m = .ok (st', un', p))
    (hinv : inv3check st = true) : inv3check st' = true := by
  rcases pass2Module_inv h with ⟨rfl, -, -⟩ |
    ⟨md, cands, chosen, a, md', -, -, hcands, hchosen, ha, -, rfl, -, -⟩
  · exact hinv
  · exact inv3_assign_preserved hinv
      (gatherCandidates_key_mem hcands chosen
        (pickMin_mem candLt hchosen)).2 ha

theorem inv3_pass3Module (strict : Bool) (st : SchedState)
    (un : List String) (m : Nat) (st' : SchedState) (un' : List String)
    (p : Nat) (h : pass3Module strict st un m = .ok (st', un', p))
    (hinv : inv3check st = true) : inv3check st' = true := by
  rcases pass3Module_inv h with ⟨rfl, -, -⟩ |
    ⟨md, cands, chosen, a, md', -, hcands, hchosen, ha, -, rfl, -, -⟩
  · exact hinv
  · exact inv3_assign_preserved hinv
      (gather3_key_mem hcands chosen (pickMin_mem cand3Lt hchosen)).2.1 ha

theorem inv3_pass1Row {st : SchedState} {row : String × Nat × String}
    {st' : SchedState} (h : pass1Row st row = .ok st')
    (hinv : inv3check st = true) : inv3check st' = true := by
  obtain ⟨md, course, teacher, md', -, hcourse, -, hmodnone, -, -, rfl⟩ :=
    pass1Row_inv h
  apply inv3check_intro
  intro k c hmem hp hcel
  dsimp only at hmem ⊢
  rcases mem_assocSet hmem with heq | hmem'
  · rw [Prod.mk.injEq] at heq
    obtain ⟨rfl, rfl⟩ := heq
    simp at hcel
  · exact chainOrderOkB_preserved hcourse hmodnone
      (inv3check_spec hinv k c hmem' hp hcel)

/-- C3 (amended): after each pass, every assigned chained unit that was not
placed by Pass 1 (`is_celebrity = false`) has every prerequisite assigned
(module and layer) with `layer*14 + slot` strictly below its own.  (Units
placed by Pass 1 themselves are excluded: Pass 1 never checks
prerequisites; see the counterexample.) -/
theorem c3_chain_order_invariant (st : SchedState) :
    (∀ rows n st', pass1_celebrity st rows = .ok (n, st') →
      inv3check st = true → inv3check st' = true) ∧
    (∀ max_layers n st', pass2_chains st max_layers = .ok (n, st') →
      inv3check st = true → inv3check st' = true) ∧
    (∀ n st', pass3_solitary st = .ok (n, st') →
      inv3check st = true → inv3check st' = true) := by
  refine ⟨?_, ?_, ?_⟩
  · intro rows n st' h hinv
    exact pass1Loop_preserve (fun s => inv3check s = true)
      (fun s row s' h1 hP => inv3_pass1Row h1 hP) h hinv
  · intro max_layers n st' h hinv
    exact pass2_chains_preserve (fun s => inv3check s = true)
      (fun layer strict s u m s' u' p hm hP =>
        inv3_pass2Module layer strict s u m s' u' p hm hP) h hinv
  · intro n st' h hinv
    exact pass3_solitary_preserve (fun s => inv3check s = true)
      (fun strict s u m s' u' p hm hP =>
        inv3_pass3Module strict s u m s' u' p hm hP) h hinv

theorem c3_chain_order_invariant_witness :
    inv3check stC3 = true ∧
    (∀ n st', pass3_solitary stC3 = .ok (n, st') → inv3check st' = true) :=
  ⟨by decide, fun n st' h =>
    (c3_chain_order_invariant stC3).2.2 n st' h (by decide)⟩

end Sched
